import Mathlib

/-!
Shallow embedding of the SimpleSSD FTL garbage-collection subsystem:
the Q-learning table (ftl/rl_gc/q_table.cc), the RL garbage collector
(ftl/rl_gc/rl_gc.cc), the reward functions of the baseline and aggressive
variants (ftl/rl_baseline_gc/rl_baseline.cc, ftl/rl_aggressive_gc/rl_aggressive.cc),
the latency-percentile calculators (ftl/lazy_rtgc/lazy_rtgc.cc and the RL
variants), and the page-mapping engine (ftl/page_mapping.cc).

Modelling conventions: C++ floats are embedded as rationals, machine integers
as Nat (simulation time is monotone, so uint64 subtraction never wraps in the
flows modelled here), std::unordered_map as association lists, and fallible
code (std::vector bounds, panic calls) as Option / Except.  Debug logging,
file output and statistics counters that no claim mentions are dropped.
-/

set_option maxHeartbeats 1000000

namespace SimpleSSDFTL

/-- RL state tuple (q_table.hh `State`): previous-interval bin,
current-interval bin, previous-action bin. -/
structure RLQState where
  prevIntervalBin : Nat
  currIntervalBin : Nat
  prevActionBin : Nat
  deriving DecidableEq, Repr

/-- Lookup in the Q-table map (`std::unordered_map<State, vector<float>>::find`). -/
def qlookup (t : List (RLQState × List ℚ)) (s : RLQState) : Option (List ℚ) :=
  match t with
  | [] => none
  | (u, v) :: rest => if u = s then some v else qlookup rest s

/-- Store a value vector for a state (map insert-or-assign). -/
def qstore (t : List (RLQState × List ℚ)) (s : RLQState) (v : List ℚ) :
    List (RLQState × List ℚ) :=
  match t with
  | [] => [(s, v)]
  | (u, w) :: rest => if u = s then (s, v) :: rest else (u, w) :: qstore rest s v

/-- Lazy zero-initialization of a state: `table[state] =
std::vector<float>(numActions, 0.0f)` when the state is absent
(q_table.cc, updateQ lines 182-201 and selectAction line 141). -/
def ensureState (numActions : Nat) (t : List (RLQState × List ℚ)) (s : RLQState) :
    List (RLQState × List ℚ) :=
  match qlookup t s with
  | some _ => t
  | none => qstore t s (List.replicate numActions 0)

/-- Maximum of a value vector (`*std::max_element`); none on the empty vector,
where the C++ iterator dereference is undefined. -/
def vecMax : List ℚ → Option ℚ
  | [] => none
  | x :: xs => some (xs.foldl max x)

/-- The Q-table object of q_table.cc (rng and debug state dropped). -/
structure QTable where
  alpha : ℚ
  gamma : ℚ
  epsilon : ℚ
  gcCount : Nat
  numActions : Nat
  table : List (RLQState × List ℚ)
  deriving DecidableEq, Repr

/-- QTable::QTable (q_table.cc lines 76-103): ε outside (0,1] is replaced by
the default 0.8. -/
def QTable.init (learningRate discountFactor initialEpsilon : ℚ)
    (actionCount : Nat) : QTable :=
  { alpha := learningRate
    gamma := discountFactor
    epsilon := if initialEpsilon ≤ 0 ∨ initialEpsilon > 1 then 4/5 else initialEpsilon
    gcCount := 0
    numActions := actionCount
    table := [] }

/-- QTable::updateQ (q_table.cc lines 180-222): zero-initialize the two states
when absent, then `table[state][action] = Q + alpha * (reward + gamma * maxNextQ - Q)`.
The C++ indexes `table[state][action]` with `std::vector::operator[]` and no
bounds check; an out-of-range action (or an empty action vector, when
numActions = 0) is undefined behaviour and is embedded as `none`. -/
def QTable.updateQ (q : QTable) (s : RLQState) (a : Nat) (r : ℚ)
    (sNext : RLQState) : Option QTable :=
  let t1 := ensureState q.numActions q.table s
  let t2 := ensureState q.numActions t1 sNext
  match qlookup t2 s, qlookup t2 sNext with
  | some vs, some vn =>
    match vecMax vn with
    | none => none
    | some maxNextQ =>
      if h : a < vs.length then
        let currentQ := vs.get ⟨a, h⟩
        let newQ := currentQ + q.alpha * (r + q.gamma * maxNextQ - currentQ)
        some { q with table := qstore t2 s (vs.set a newQ) }
      else none
  | _, _ => none

/-- QTable::getQValue (q_table.cc lines 224-230): 0 for an unknown state or an
out-of-range action. -/
def QTable.getQValue (q : QTable) (s : RLQState) (a : Nat) : ℚ :=
  match qlookup q.table s with
  | none => 0
  | some v => if a < q.numActions then v.getD a 0 else 0

/-- The action-value vector claim C4 reads updates against: the stored vector,
or the all-zero vector for an absent state. -/
def QTable.stateVec (q : QTable) (s : RLQState) : List ℚ :=
  (qlookup q.table s).getD (List.replicate q.numActions 0)

/-- max over all actions of Q[s][a], absent states read as all-zero. -/
def QTable.maxNext (q : QTable) (s : RLQState) : ℚ :=
  (vecMax (q.stateVec s)).getD 0

/-- QTable::decayEpsilon (q_table.cc lines 232-257): at 1000 GC operations ε
above 0.01 is forced to 0.01; before that, ε above 0.01 becomes
max(0.01, ε·0.998); an ε at or below 0.01 is left untouched by both branches. -/
def decayEpsilonStep (gcCount : Nat) (epsilon : ℚ) : ℚ :=
  if gcCount ≥ 1000 ∧ epsilon > 1/100 then 1/100
  else if epsilon > 1/100 then max (1/100) (epsilon * (998/1000))
  else epsilon

/-- The ε clamp at the head of QTable::selectAction (q_table.cc lines 107-117):
gcCount is incremented, then ε above 0.01 is forced to 0.01 once 1000 GC
operations are reached. -/
def selectActionClamp (gcCount : Nat) (epsilon : ℚ) : Nat × ℚ :=
  let g := gcCount + 1
  if g ≥ 1000 ∧ epsilon > 1/100 then (g, 1/100) else (g, epsilon)

/-- RLGarbageCollector::calculateReward of ftl/rl_gc/rl_gc.cc (lines 715-779):
with fewer than 100 ring samples a fixed ladder, otherwise the percentile
thresholds t1/t2/t3, with −1 above t3. -/
def rlgcCalculateReward (ringSize t1 t2 t3 responseTime : Nat) : ℚ :=
  if ringSize < 100 then
    if responseTime < 100000 then 1
    else if responseTime < 1000000 then 1/2
    else if responseTime < 10000000 then 0
    else -(1/2)
  else
    if responseTime ≤ t1 then 1
    else if responseTime ≤ t2 then 1/2
    else if responseTime ≤ t3 then -(1/2)
    else -1

/-- RLGarbageCollector::calculateReward of ftl/rl_baseline_gc/rl_baseline.cc
(lines 650-703): identical to the rl_gc variant except that the branch above
t3 assigns −0.5, the same value as the t2..t3 band. -/
def rlBaselineCalculateReward (ringSize t1 t2 t3 responseTime : Nat) : ℚ :=
  if ringSize < 100 then
    if responseTime < 100000 then 1
    else if responseTime < 1000000 then 1/2
    else if responseTime < 10000000 then 0
    else -(1/2)
  else
    if responseTime ≤ t1 then 1
    else if responseTime ≤ t2 then 1/2
    else if responseTime ≤ t3 then -(1/2)
    else -(1/2)

/-- RLAggressiveGarbageCollector::calculateReward of
ftl/rl_aggressive_gc/rl_aggressive.cc (lines 806-859): same ladder as the
baseline variant, with −0.5 above t3. -/
def rlAggressiveCalculateReward (ringSize t1 t2 t3 responseTime : Nat) : ℚ :=
  if ringSize < 100 then
    if responseTime < 100000 then 1
    else if responseTime < 1000000 then 1/2
    else if responseTime < 10000000 then 0
    else -(1/2)
  else
    if responseTime ≤ t1 then 1
    else if responseTime ≤ t2 then 1/2
    else if responseTime ≤ t3 then -(1/2)
    else -(1/2)

/-- The reward ladder exactly as claim C1 words it: ≥100 samples → +1 / +0.5 /
−0.5 / −1 against t1/t2/t3; fewer than 100 samples → the fixed ladder. -/
def claimRewardLadder (ringSize t1 t2 t3 r : Nat) : ℚ :=
  if ringSize ≥ 100 then
    if r ≤ t1 then 1 else if r ≤ t2 then 1/2 else if r ≤ t3 then -(1/2) else -1
  else
    if r < 100000 then 1 else if r < 1000000 then 1/2
    else if r < 10000000 then 0 else -(1/2)

/-- The same ladder with the shallower −0.5 penalty above t3, as the baseline
and aggressive variants implement it. -/
def claimRewardLadderShallow (ringSize t1 t2 t3 r : Nat) : ℚ :=
  if ringSize ≥ 100 then
    if r ≤ t1 then 1 else if r ≤ t2 then 1/2 else if r ≤ t3 then -(1/2) else -(1/2)
  else
    if r < 100000 then 1 else if r < 1000000 then 1/2
    else if r < 10000000 then 0 else -(1/2)

/-- RLGarbageCollector::discretizePrevInterval (rl_gc.cc lines 528-532):
short (<100µs) vs long. -/
def discretizePrevInterval (interval : Nat) : Nat :=
  if interval < 100000 then 0 else 1

/-- The 16 fixed thresholds of discretizeCurrInterval (rl_gc.cc lines 540-557). -/
def currIntervalThresholds : List Nat :=
  [10000, 20000, 50000, 100000, 200000, 500000, 1000000, 2000000, 5000000,
   10000000, 20000000, 50000000, 100000000, 200000000, 500000000, 1000000000]

/-- RLGarbageCollector::discretizeCurrInterval (rl_gc.cc lines 534-567):
bin 0 for a zero interval, bins 1..16 below the thresholds, 17 at or above 1s. -/
def discretizeCurrInterval (interval : Nat) : Nat :=
  if interval = 0 then 0
  else
    match currIntervalThresholds.findIdx? (fun t => interval < t) with
    | some i => i + 1
    | none => 17

/-- RLGarbageCollector::discretizeAction (rl_gc.cc lines 569-573). -/
def discretizeAction (maxPageCopies action : Nat) : Nat :=
  if action ≤ maxPageCopies / 2 then 0 else 1

/-- The mutable fields of RLGarbageCollector (rl_gc.hh) that the trigger,
action and pending-update logic reads and writes. -/
structure RLGCState where
  lastAction : Nat
  lastRequestTime : Nat
  currentRequestTime : Nat
  prevInterRequestTime : Nat
  currInterRequestTime : Nat
  previousState : RLQState
  currentState : RLQState
  hasPendingUpdate : Bool
  pendingState : RLQState
  pendingAction : Nat
  deriving DecidableEq, Repr

/-- RLGarbageCollector::updateState (rl_gc.cc lines 279-320). -/
def rlgcUpdateState (maxPageCopies : Nat) (rl : RLGCState) (currentTime : Nat) :
    RLGCState :=
  let prevI := if rl.lastRequestTime > 0 then rl.currInterRequestTime else 0
  let currI := if rl.lastRequestTime > 0 then currentTime - rl.lastRequestTime else 0
  { rl with
    previousState := rl.currentState
    currentRequestTime := currentTime
    prevInterRequestTime := prevI
    currInterRequestTime := currI
    lastRequestTime := currentTime
    currentState :=
      ⟨discretizePrevInterval prevI, discretizeCurrInterval currI,
       discretizeAction maxPageCopies rl.lastAction⟩ }

/-- The inter-request interval RLGarbageCollector::shouldTriggerGC computes
for the incoming request (rl_gc.cc lines 164-186). -/
def computedInterval (rl : RLGCState) (currentTime : Nat) : Nat :=
  if rl.lastRequestTime > 0 then currentTime - rl.lastRequestTime else 0

/-- RLGarbageCollector::shouldTriggerGC (rl_gc.cc lines 150-220): no trigger
above tgc; the interval bookkeeping happens next; a zero interval never
triggers — this test comes before the tigc test; at or below tigc the
intensive trigger fires; otherwise the RL state is refreshed and the trigger
fires. -/
def rlgcShouldTriggerGC (tgc tigc maxPageCopies : Nat) (rl : RLGCState)
    (freeBlocks currentTime : Nat) : Bool × RLGCState :=
  if freeBlocks > tgc then (false, rl)
  else
    let prevI := if rl.lastRequestTime > 0 then rl.currInterRequestTime else 0
    let currI := if rl.lastRequestTime > 0 then currentTime - rl.lastRequestTime else 0
    let rl1 := { rl with
      currentRequestTime := currentTime
      prevInterRequestTime := prevI
      currInterRequestTime := currI
      lastRequestTime := currentTime }
    if currI = 0 then (false, rl1)
    else if freeBlocks ≤ tigc then (true, rl1)
    else (true, rlgcUpdateState maxPageCopies rl1 currentTime)

/-- RLGarbageCollector::schedulePendingUpdate (rl_gc.cc lines 451-465). -/
def rlgcSchedulePending (rl : RLGCState) (s : RLQState) (a : Nat) : RLGCState :=
  { rl with hasPendingUpdate := true, pendingState := s, pendingAction := a }

/-- RLGarbageCollector::getGCAction (rl_gc.cc lines 222-277).  At or below
tigc the action is maxPageCopies itself and a pending update for it is
scheduled; otherwise the ε-greedy pick (`selected`, standing for the
RNG-dependent result of QTable::selectAction) is capped at maxPageCopies. -/
def rlgcGetGCAction (tigc maxPageCopies selected : Nat) (rl : RLGCState)
    (freeBlocks : Nat) : Nat × RLGCState :=
  if freeBlocks ≤ tigc then
    let rl1 := { rl with lastAction := maxPageCopies }
    (maxPageCopies, rlgcSchedulePending rl1 rl1.currentState maxPageCopies)
  else
    let action := if selected > maxPageCopies then maxPageCopies else selected
    let rl1 := { rl with lastAction := action }
    (action, rlgcSchedulePending rl1 rl1.currentState action)

/-- RLGarbageCollector::processPendingUpdate (rl_gc.cc lines 467-522): reward
from the response time, next state from the current intervals and the pending
action, then QTable::updateQ on the pending pair and an ε decay.  The `none`
of updateQ (out-of-range action) propagates. -/
def rlgcProcessPendingUpdate (maxPageCopies ringSize t1 t2 t3 : Nat)
    (q : QTable) (rl : RLGCState) (responseTime : Nat) :
    Option (ℚ × QTable × RLGCState) :=
  if rl.hasPendingUpdate = false then some (0, q, rl)
  else
    let reward := rlgcCalculateReward ringSize t1 t2 t3 responseTime
    let nextState : RLQState :=
      ⟨discretizePrevInterval rl.prevInterRequestTime,
       discretizeCurrInterval rl.currInterRequestTime,
       discretizeAction maxPageCopies rl.pendingAction⟩
    match q.updateQ rl.pendingState rl.pendingAction reward nextState with
    | none => none
    | some q1 =>
      some (reward,
        { q1 with epsilon := decayEpsilonStep q1.gcCount q1.epsilon },
        { rl with hasPendingUpdate := false })

/-- What the engine does about GC at the end of one logical I/O. -/
inductive GCOutcome
  | noGC
  | partialGC (action : Nat)
  | intensiveFullGC
  deriving DecidableEq, Repr

/-- The post-write GC decision of PageMapping::write (page_mapping.cc lines
329-361) with the RL policy enabled: needGC is bReclaimMore or free blocks at
or below the tgc threshold; if the RL trigger fires, a partial GC with the
selected action; otherwise, at or below tigc, a full (intensive) GC. -/
def writeGCDecision (tgc tigc maxPageCopies selected : Nat) (bReclaimMore : Bool)
    (rl : RLGCState) (freeBlocks tick : Nat) : GCOutcome × RLGCState :=
  if bReclaimMore = true ∨ freeBlocks ≤ tgc then
    match rlgcShouldTriggerGC tgc tigc maxPageCopies rl freeBlocks tick with
    | (true, rl1) =>
      let ar := rlgcGetGCAction tigc maxPageCopies selected rl1 freeBlocks
      (GCOutcome.partialGC ar.1, ar.2)
    | (false, rl1) =>
      if freeBlocks ≤ tigc then (GCOutcome.intensiveFullGC, rl1)
      else (GCOutcome.noGC, rl1)
  else (GCOutcome.noGC, rl)

/-- The post-read GC decision of PageMapping::read (page_mapping.cc lines
283-295): at or below tgc, the RL trigger is consulted and a partial GC runs
when it fires; there is no intensive fallback on the read path. -/
def readGCDecision (tgc tigc maxPageCopies selected : Nat) (rl : RLGCState)
    (freeBlocks tick : Nat) : GCOutcome × RLGCState :=
  if freeBlocks ≤ tgc then
    match rlgcShouldTriggerGC tgc tigc maxPageCopies rl freeBlocks tick with
    | (true, rl1) =>
      let ar := rlgcGetGCAction tigc maxPageCopies selected rl1 freeBlocks
      (GCOutcome.partialGC ar.1, ar.2)
    | (false, rl1) => (GCOutcome.noGC, rl1)
  else (GCOutcome.noGC, rl)

/-- Ascending sort of the response-time ring (`std::sort` on the copied ring). -/
def sortRing (ring : List Nat) : List Nat :=
  List.insertionSort (· ≤ ·) ring

/-- LazyRTGC::getLatencyPercentile (lazy_rtgc.cc lines 430-459): 0 only for an
empty ring; otherwise sort, take index floor((n−1)·p/100), interpolating
between neighbours for fractional positions.  Float positions are embedded as
rationals; the size_t and uint64 casts floor. -/
def lazyGetLatencyPercentile (ring : List Nat) (percentile : ℚ) : Nat :=
  if ring = [] then 0
  else
    let sorted := sortRing ring
    let n := sorted.length
    let pos : ℚ := ((n - 1 : Nat) : ℚ) * (percentile / 100)
    let idx : Nat := pos.floor.toNat
    if idx ≥ n - 1 then sorted.getLastD 0
    else
      let fraction := pos - (idx : ℚ)
      if fraction > 0 ∧ idx < n - 1 then
        (Rat.floor (((sorted.getD idx 0 : Nat) : ℚ) * (1 - fraction) +
          ((sorted.getD (idx + 1) 0 : Nat) : ℚ) * fraction)).toNat
      else sorted.getD idx 0

/-- RLGarbageCollector::getLatencyPercentile of rl_baseline.cc (lines
900-927): 0 only for an empty ring; position (n−1)·p/100. -/
def rlBaselineGetLatencyPercentile (ring : List Nat) (percentile : ℚ) : Nat :=
  if ring = [] then 0
  else
    let sorted := sortRing ring
    let n := sorted.length
    let pos : ℚ := ((n - 1 : Nat) : ℚ) * percentile / 100
    let idx : Nat := pos.floor.toNat
    if idx ≥ n - 1 then sorted.getLastD 0
    else
      let fraction := pos - (idx : ℚ)
      if fraction > 0 ∧ idx < n - 1 then
        (Rat.floor (((sorted.getD idx 0 : Nat) : ℚ) * (1 - fraction) +
          ((sorted.getD (idx + 1) 0 : Nat) : ℚ) * fraction)).toNat
      else sorted.getD idx 0

/-- RLAggressiveGarbageCollector::getLatencyPercentile (rl_aggressive.cc lines
861-892): 0 for fewer than 10 samples; a percentile above 1 is divided by 100
first; position (n−1)·p. -/
def rlAggressiveGetLatencyPercentile (ring : List Nat) (percentile : ℚ) : Nat :=
  if ring.length < 10 then 0
  else
    let sorted := sortRing ring
    let n := sorted.length
    let p := if percentile > 1 then percentile / 100 else percentile
    let pos : ℚ := ((n - 1 : Nat) : ℚ) * p
    let idx : Nat := pos.floor.toNat
    if idx ≥ n - 1 then sorted.getLastD 0
    else
      let fraction := pos - (idx : ℚ)
      if fraction > 0 ∧ idx < n - 1 then
        (Rat.floor (((sorted.getD idx 0 : Nat) : ℚ) * (1 - fraction) +
          ((sorted.getD (idx + 1) 0 : Nat) : ℚ) * fraction)).toNat
      else sorted.getD idx 0

/-- Association-list lookup for Nat-keyed maps (std::unordered_map::find). -/
def alookup {β : Type} (l : List (Nat × β)) (k : Nat) : Option β :=
  match l with
  | [] => none
  | (k1, v) :: rest => if k1 = k then some v else alookup rest k

/-- Association-list insert-or-assign. -/
def astore {β : Type} (l : List (Nat × β)) (k : Nat) (v : β) : List (Nat × β) :=
  match l with
  | [] => [(k, v)]
  | (k1, v1) :: rest => if k1 = k then (k, v) :: rest else (k1, v1) :: astore rest k v

/-- Association-list key removal (std::unordered_map::erase).  The C++ map has
unique keys, so dropping every binding of the key is the same operation. -/
def aremove {β : Type} (l : List (Nat × β)) (k : Nat) : List (Nat × β) :=
  match l with
  | [] => []
  | (k1, v1) :: rest =>
    if k1 = k then aremove rest k else (k1, v1) :: aremove rest k

/-- Modelled from the spec: one page of a Block (block.cc is not among the
source files; spec section 3 "Block" and section 4.1).  One (lpn, valid) slot
per I/O sub-unit; invalidate clears the valid bit and leaves the lpn for GC
reconstruction. -/
structure Page where
  lpns : List Nat
  valid : List Bool
  deriving DecidableEq, Repr

/-- Modelled from the spec: the Block erase unit (block.cc is not among the
source files; spec sections 3 and 4.1): per-page sub-unit slots, a
next-write-page cursor, an erase count and a last-accessed time. -/
structure Block where
  blockIndex : Nat
  pages : List Page
  nextWritePageIndex : Nat
  eraseCount : Nat
  lastAccessed : Nat
  deriving DecidableEq, Repr

/-- Modelled from the spec: Block::getValidPageCount as the number of valid
sub-unit bits (section 4.1: invalidate "decrements valid count" per sub-unit). -/
def Block.validCount (b : Block) : Nat :=
  (b.pages.map (fun p => p.valid.count true)).sum

/-- Modelled from the spec: Block::getPageInfo returns the page's full lpn and
valid-bit vectors; none when the page index is out of range. -/
def Block.getPageInfo (b : Block) (pageIndex : Nat) : Option (List Nat × List Bool) :=
  (b.pages.get? pageIndex).map fun p => (p.lpns, p.valid)

/-- Modelled from the spec: Block::invalidate clears one sub-unit valid bit
(section 4.1); out-of-range indices leave the block unchanged. -/
def Block.invalidate (b : Block) (pageIndex subIdx : Nat) : Block :=
  match b.pages.get? pageIndex with
  | none => b
  | some p =>
    { b with pages := b.pages.set pageIndex { p with valid := p.valid.set subIdx false } }

/-- Modelled from the spec: Block::erase clears all validity, resets the write
cursor and increments the erase count (section 4.1).  The caller
(PageMapping::eraseInternal) has already checked that no valid pages remain. -/
def Block.eraseAll (b : Block) : Block :=
  { b with
    pages := b.pages.map (fun p => { p with valid := p.valid.map (fun _ => false) })
    nextWritePageIndex := 0
    eraseCount := b.eraseCount + 1 }

/-- Modelled from the spec: Block::read only refreshes the last-accessed time
as far as block state is concerned (section 4.1). -/
def Block.readAccess (b : Block) (tick : Nat) : Block :=
  { b with lastAccessed := tick }

/-- The device geometry and configuration the page-mapping engine reads. -/
structure Params where
  totalPhysicalBlocks : Nat
  pagesInBlock : Nat
  ioUnitInPage : Nat
  pageCountToMaxPerf : Nat
  bitsetSize : Nat
  bRandomTweak : Bool
  badBlockThreshold : Nat
  deriving DecidableEq, Repr

/-- The mutable engine state of PageMapping (page_mapping.hh): active blocks,
the free pool, the mapping table and the write-stream allocator. -/
structure FTLState where
  blocks : List (Nat × Block)
  freeBlocks : List Block
  nFreeBlocks : Nat
  table : List (Nat × List (Nat × Nat))
  lastFreeBlock : List Nat
  lastFreeBlockIndex : Nat
  lastFreeBlockIOMap : List Bool
  bReclaimMore : Bool
  deriving DecidableEq, Repr

/-- The fatal panic calls of page_mapping.cc, plus the std::out_of_range of
std::vector::at, as explicit errors. -/
inductive Panic
  | noSuchBlock
  | validPagesRemain
  | corrupted
  | noFreeBlockLeft
  | indexOutOfRange
  deriving DecidableEq, Repr

/-- The PAL requests a call issues (the consumed external interface). -/
inductive PalEvent
  | read (block page : Nat)
  | write (block page : Nat)
  | erase (block : Nat)
  deriving DecidableEq, Repr

/-- Bitset AND (util/bitset). -/
def bitsAnd (a b : List Bool) : List Bool := a.zipWith (· && ·) b

/-- Bitset OR. -/
def bitsOr (a b : List Bool) : List Bool := a.zipWith (· || ·) b

/-- Bitset any(). -/
def bitsAny (a : List Bool) : Bool := a.any id

/-- The reverse scan of PageMapping::eraseInternal (page_mapping.cc lines
1013-1033) on the reversed free list: walking from the back of the free list,
the erased block lands right after the last block whose erase count is at most
its own, keeping the list sorted; if every block has a larger count it lands
at the front.  On an empty free list the C++ decrements end() of an empty
std::list (undefined); the model inserts directly. -/
def insertFreeRevAux (e : Nat) (b : Block) : List Block → List Block
  | [] => [b]
  | x :: xs => if x.eraseCount ≤ e then b :: x :: xs else x :: insertFreeRevAux e b xs

/-- Ordered reinsertion of a just-erased block into the free list. -/
def insertFreeBlock (l : List Block) (b : Block) : List Block :=
  (insertFreeRevAux b.eraseCount b l.reverse).reverse

/-- PageMapping::eraseInternal (page_mapping.cc lines 991-1041): panic when the
block is missing or still holds valid pages; otherwise erase it, issue the PAL
erase, reinsert it into the free pool by erase count unless it reached the
bad-block threshold, and drop it from the active map. -/
def eraseInternal (P : Params) (blockIndex : Nat) (st : FTLState) :
    Except Panic (FTLState × List PalEvent) :=
  match alookup st.blocks blockIndex with
  | none => .error .noSuchBlock
  | some b =>
    if b.validCount ≠ 0 then .error .validPagesRemain
    else
      let b1 := b.eraseAll
      let st1 :=
        if b1.eraseCount < P.badBlockThreshold then
          { st with
            freeBlocks := insertFreeBlock st.freeBlocks b1
            nFreeBlocks := st.nFreeBlocks + 1 }
        else st
      .ok ({ st1 with blocks := aremove st1.blocks blockIndex },
           [PalEvent.erase blockIndex])

/-- PageMapping::getFreeBlock (page_mapping.cc lines 454-496): take the first
free block whose index matches the stream modulo pageCountToMaxPerf, falling
back to the first free block; move it into the active map. -/
def getFreeBlock (P : Params) (idx : Nat) (st : FTLState) :
    Except Panic (Nat × FTLState) :=
  if idx ≥ P.pageCountToMaxPerf then .error .indexOutOfRange
  else if st.nFreeBlocks > 0 then
    let i0 := st.freeBlocks.findIdx (fun b => b.blockIndex % P.pageCountToMaxPerf = idx)
    let i := if i0 < st.freeBlocks.length then i0 else 0
    match st.freeBlocks.get? i with
    | none => .error .corrupted
    | some blk =>
      if (alookup st.blocks blk.blockIndex).isSome then .error .corrupted
      else
        .ok (blk.blockIndex,
          { st with
            blocks := astore st.blocks blk.blockIndex blk
            freeBlocks := st.freeBlocks.eraseIdx i
            nFreeBlocks := st.nFreeBlocks - 1 })
  else .error .noFreeBlockLeft

/-- The stream bookkeeping at the head of PageMapping::getLastFreeBlock
(page_mapping.cc lines 499-511): advance the round-robin stream on a sub-unit
collision (or always without the random-IO tweak), else accumulate the mask. -/
def advanceStream (P : Params) (iomap : List Bool) (st : FTLState) : FTLState :=
  if !P.bRandomTweak || bitsAny (bitsAnd st.lastFreeBlockIOMap iomap) then
    let nextIdx :=
      if st.lastFreeBlockIndex + 1 = P.pageCountToMaxPerf then 0
      else st.lastFreeBlockIndex + 1
    { st with lastFreeBlockIndex := nextIdx, lastFreeBlockIOMap := iomap }
  else { st with lastFreeBlockIOMap := bitsOr st.lastFreeBlockIOMap iomap }

/-- PageMapping::getLastFreeBlock (page_mapping.cc lines 498-528): advance the
stream, pull a fresh block and raise bReclaimMore when the current stream
block is full, and return the stream's current block index. -/
def getLastFreeBlock (P : Params) (iomap : List Bool) (st : FTLState) :
    Except Panic (Nat × FTLState) :=
  let st1 := advanceStream P iomap st
  match st1.lastFreeBlock.get? st1.lastFreeBlockIndex with
  | none => .error .indexOutOfRange
  | some bid =>
    match alookup st1.blocks bid with
    | none => .error .corrupted
    | some fb =>
      if fb.nextWritePageIndex = P.pagesInBlock then
        match getFreeBlock P st1.lastFreeBlockIndex st1 with
        | .error e => .error e
        | .ok (newBid, st2) =>
          let st3 := { st2 with
            lastFreeBlock := st2.lastFreeBlock.set st2.lastFreeBlockIndex newBid
            bReclaimMore := true }
          .ok (st3.lastFreeBlock.getD st3.lastFreeBlockIndex 0, st3)
      else .ok (bid, st1)

/-- Update one active block in place (a C++ mutation through a reference). -/
def updateBlock (st : FTLState) (bid : Nat) (f : Block → Block) : FTLState :=
  match alookup st.blocks bid with
  | none => st
  | some b => { st with blocks := astore st.blocks bid (f b) }

/-- The per-sub-unit body of the partial-GC copy (page_mapping.cc lines
1250-1263): for each valid sub-unit, re-point that lpn's mapping entry at the
new location (vector::at, which throws out of range) and invalidate the old
sub-unit in the victim. -/
def ppgcCopySubunits (victimID pageIndex newBlockID newPageID : Nat)
    (lpns : List Nat) (validBits : List Bool) :
    List Nat → FTLState → Except Panic FTLState
  | [], st => .ok st
  | idx :: rest, st =>
    if validBits.getD idx false then
      let lpn := lpns.getD idx 0
      let afterTable : Except Panic FTLState :=
        match alookup st.table lpn with
        | none => .ok st
        | some mapping =>
          match mapping.get? idx with
          | none => .error .indexOutOfRange
          | some _ =>
            .ok { st with
              table := astore st.table lpn (mapping.set idx (newBlockID, newPageID)) }
      match afterTable with
      | .error e => .error e
      | .ok st1 =>
        ppgcCopySubunits victimID pageIndex newBlockID newPageID lpns validBits rest
          (updateBlock st1 victimID (fun b => b.invalidate pageIndex idx))
    else ppgcCopySubunits victimID pageIndex newBlockID newPageID lpns validBits rest st

/-- The page loop of PageMapping::performPartialGC (page_mapping.cc lines
1209-1266): runs `copied` up to the budget, stops early when the victim has no
valid page left, skips pages without valid sub-units, and otherwise allocates
a destination, issues the PAL copy and re-points the mappings. -/
def ppgcLoop (P : Params) (victimID pagesToCopy : Nat) :
    List Nat → Nat → FTLState → List PalEvent →
    Except Panic (Nat × FTLState × List PalEvent)
  | [], copied, st, evs => .ok (copied, st, evs)
  | pageIndex :: rest, copied, st, evs =>
    if copied ≥ pagesToCopy then .ok (copied, st, evs)
    else
      match alookup st.blocks victimID with
      | none => .error .noSuchBlock
      | some victim =>
        if victim.validCount = 0 then .ok (copied, st, evs)
        else
          match victim.getPageInfo pageIndex with
          | none => ppgcLoop P victimID pagesToCopy rest copied st evs
          | some (lpns, validBits) =>
            if bitsAny validBits = false then
              ppgcLoop P victimID pagesToCopy rest copied st evs
            else
              match getLastFreeBlock P validBits st with
              | .error e => .error e
              | .ok (newBlockID, st1) =>
                match alookup st1.blocks newBlockID with
                | none => .error .noSuchBlock
                | some newBlock =>
                  let newPageID := newBlock.nextWritePageIndex
                  match ppgcCopySubunits victimID pageIndex newBlockID newPageID lpns
                      validBits (List.range P.ioUnitInPage) st1 with
                  | .error e => .error e
                  | .ok st2 =>
                    ppgcLoop P victimID pagesToCopy rest (copied + 1) st2
                      (evs ++ [PalEvent.read victimID pageIndex,
                               PalEvent.write newBlockID newPageID])

/-- PageMapping::performPartialGC (page_mapping.cc lines 1163-1280): zero
budget returns at once; victims are the provided list or, when it is empty,
the selectVictimBlock result (`selectedVictims`, standing for that
config- and RNG-dependent choice); only the head victim is processed: erased
straight away when already empty, otherwise drained up to the budget and
erased exactly when no valid page remains.  The lookup after the loop mirrors
the C++ reference into the block map, which the loop never removes. -/
def performPartialGC (P : Params) (pagesToCopy : Nat)
    (victimBlocks selectedVictims : List Nat) (st : FTLState) :
    Except Panic (Nat × FTLState × List PalEvent) :=
  if pagesToCopy = 0 then .ok (0, st, [])
  else
    match (if victimBlocks = [] then selectedVictims else victimBlocks) with
    | [] => .ok (0, st, [])
    | victimID :: _ =>
      match alookup st.blocks victimID with
      | none => .ok (0, st, [])
      | some victim =>
        if victim.validCount = 0 then
          match eraseInternal P victimID st with
          | .error e => .error e
          | .ok (st1, evs) => .ok (0, st1, evs)
        else
          match ppgcLoop P victimID pagesToCopy (List.range P.pagesInBlock) 0 st [] with
          | .error e => .error e
          | .ok (copied, st1, evs) =>
            match alookup st1.blocks victimID with
            | none => .ok (copied, st1, evs)
            | some victim1 =>
              if victim1.validCount = 0 then
                match eraseInternal P victimID st1 with
                | .error e => .error e
                | .ok (st2, evs2) => .ok (copied, st2, evs ++ evs2)
              else .ok (copied, st1, evs)

/-- The lpn reconstruction of doGarbageCollection (page_mapping.cc lines
684-695): the recorded lpn of the first valid sub-unit. -/
def firstValidLpn (lpns : List Nat) (validBits : List Bool) : Option Nat :=
  match validBits.findIdx? id with
  | some i => some (lpns.getD i 0)
  | none => none

/-- The mapping rewrite of doGarbageCollection (page_mapping.cc lines
720-728): one lpn, every valid sub-unit index below bitsetSize re-pointed. -/
def dgcSetMapping (newBlockID newPageID : Nat) (validBits : List Bool) :
    List Nat → List (Nat × Nat) → Except Panic (List (Nat × Nat))
  | [], m => .ok m
  | idx :: rest, m =>
    if validBits.getD idx false then
      match m.get? idx with
      | none => .error .indexOutOfRange
      | some _ =>
        dgcSetMapping newBlockID newPageID validBits rest (m.set idx (newBlockID, newPageID))
    else dgcSetMapping newBlockID newPageID validBits rest m

/-- The invalidation sweep of doGarbageCollection (page_mapping.cc lines
730-735). -/
def invalidateSubunits (victimID pageIndex : Nat) (validBits : List Bool)
    (idxs : List Nat) (st : FTLState) : FTLState :=
  idxs.foldl
    (fun s idx =>
      if validBits.getD idx false then
        updateBlock s victimID (fun b => b.invalidate pageIndex idx)
      else s)
    st

/-- The page loop of PageMapping::doGarbageCollection (page_mapping.cc lines
671-738): every page with a valid sub-unit is copied (no budget), the lpn is
reconstructed from the first valid sub-unit, and the mapping of that lpn is
re-pointed for every valid sub-unit index. -/
def dgcPageLoop (P : Params) (victimID : Nat) :
    List Nat → FTLState → List PalEvent → Except Panic (FTLState × List PalEvent)
  | [], st, evs => .ok (st, evs)
  | pageIndex :: rest, st, evs =>
    match alookup st.blocks victimID with
    | none => .error .noSuchBlock
    | some victim =>
      match victim.getPageInfo pageIndex with
      | none => dgcPageLoop P victimID rest st evs
      | some (lpns, validBits) =>
        if bitsAny validBits = false then dgcPageLoop P victimID rest st evs
        else
          match firstValidLpn lpns validBits with
          | none => dgcPageLoop P victimID rest st evs
          | some lpn =>
            match getLastFreeBlock P validBits st with
            | .error e => .error e
            | .ok (newBlockID, st1) =>
              match alookup st1.blocks newBlockID with
              | none => .error .noSuchBlock
              | some newBlock =>
                let newPageID := newBlock.nextWritePageIndex
                let afterTable : Except Panic FTLState :=
                  match alookup st1.table lpn with
                  | none => .ok st1
                  | some m =>
                    match dgcSetMapping newBlockID newPageID validBits
                        (List.range P.bitsetSize) m with
                    | .error e => .error e
                    | .ok m1 => .ok { st1 with table := astore st1.table lpn m1 }
                match afterTable with
                | .error e => .error e
                | .ok st2 =>
                  dgcPageLoop P victimID rest
                    (invalidateSubunits victimID pageIndex validBits
                      (List.range P.bitsetSize) st2)
                    (evs ++ [PalEvent.read victimID pageIndex,
                             PalEvent.write newBlockID newPageID])

/-- The victim loop of PageMapping::doGarbageCollection (page_mapping.cc lines
652-746): missing victims are skipped, empty victims erased at once, the rest
fully drained and erased when emptied. -/
def dgcVictimLoop (P : Params) :
    List Nat → FTLState → List PalEvent → Except Panic (FTLState × List PalEvent)
  | [], st, evs => .ok (st, evs)
  | vid :: rest, st, evs =>
    match alookup st.blocks vid with
    | none => dgcVictimLoop P rest st evs
    | some victim =>
      if victim.validCount = 0 then
        match eraseInternal P vid st with
        | .error e => .error e
        | .ok (st1, evs1) => dgcVictimLoop P rest st1 (evs ++ evs1)
      else
        match dgcPageLoop P vid (List.range P.pagesInBlock) st evs with
        | .error e => .error e
        | .ok (st1, evs1) =>
          match alookup st1.blocks vid with
          | none => dgcVictimLoop P rest st1 evs1
          | some victim1 =>
            if victim1.validCount = 0 then
              match eraseInternal P vid st1 with
              | .error e => .error e
              | .ok (st2, evs2) => dgcVictimLoop P rest st2 (evs1 ++ evs2)
            else dgcVictimLoop P rest st1 evs1

/-- PageMapping::doGarbageCollection (page_mapping.cc lines 642-756): victims
as provided, or the selectVictimBlock result when the list is empty. -/
def doGarbageCollection (P : Params) (victimBlocks selectedVictims : List Nat)
    (st : FTLState) : Except Panic (FTLState × List PalEvent) :=
  dgcVictimLoop P (if victimBlocks = [] then selectedVictims else victimBlocks) st []

/-- The sub-unit sweep of PageMapping::trimInternal (page_mapping.cc lines
965-982): vector::at on each index below bitsetSize, skipping sentinel
mappings and missing blocks, invalidating the rest. -/
def trimSubunits (P : Params) (mappingList : List (Nat × Nat)) :
    List Nat → FTLState → Except Panic FTLState
  | [], st => .ok st
  | idx :: rest, st =>
    match mappingList.get? idx with
    | none => .error .indexOutOfRange
    | some mapping =>
      if mapping.1 ≥ P.totalPhysicalBlocks ∨ mapping.2 ≥ P.pagesInBlock then
        trimSubunits P mappingList rest st
      else
        match alookup st.blocks mapping.1 with
        | none => trimSubunits P mappingList rest st
        | some _ =>
          trimSubunits P mappingList rest
            (updateBlock st mapping.1 (fun b => b.invalidate mapping.2 idx))

/-- PageMapping::trimInternal (page_mapping.cc lines 953-989): nothing for an
unmapped lpn; otherwise invalidate every in-range mapped sub-unit whose block
exists and remove the mapping entry.  (The DRAM access is latency-only.) -/
def trimInternal (P : Params) (lpn : Nat) (st : FTLState) : Except Panic FTLState :=
  match alookup st.table lpn with
  | none => .ok st
  | some mappingList =>
    match trimSubunits P mappingList (List.range P.bitsetSize) st with
    | .error e => .error e
    | .ok st1 => .ok { st1 with table := aremove st1.table lpn }

/-- The sub-unit loop of PageMapping::readInternal (page_mapping.cc lines
772-804): selected sub-units with an in-range mapping and an existing block
refresh that block's last access and issue one PAL read; everything else is
skipped silently. -/
def readSubunits (P : Params) (tick : Nat) (ioFlag : List Bool)
    (mappingList : List (Nat × Nat)) :
    List Nat → FTLState → List PalEvent → Except Panic (FTLState × List PalEvent)
  | [], st, evs => .ok (st, evs)
  | idx :: rest, st, evs =>
    if ioFlag.getD idx false || !P.bRandomTweak then
      match mappingList.get? idx with
      | none => .error .indexOutOfRange
      | some mapping =>
        if mapping.1 < P.totalPhysicalBlocks ∧ mapping.2 < P.pagesInBlock then
          match alookup st.blocks mapping.1 with
          | none => readSubunits P tick ioFlag mappingList rest st evs
          | some _ =>
            readSubunits P tick ioFlag mappingList rest
              (updateBlock st mapping.1 (fun b => b.readAccess tick))
              (evs ++ [PalEvent.read mapping.1 mapping.2])
        else readSubunits P tick ioFlag mappingList rest st evs
    else readSubunits P tick ioFlag mappingList rest st evs

/-- PageMapping::readInternal (page_mapping.cc lines 758-809): an unmapped lpn
returns silently with no PAL traffic and no state change. -/
def readInternal (P : Params) (lpn : Nat) (ioFlag : List Bool) (tick : Nat)
    (st : FTLState) : Except Panic (FTLState × List PalEvent) :=
  match alookup st.table lpn with
  | none => .ok (st, [])
  | some mappingList => readSubunits P tick ioFlag mappingList (List.range P.bitsetSize) st []

/-- One sub-unit's validity bit inside a block. -/
def Block.bit (b : Block) (p i : Nat) : Bool :=
  match b.pages.get? p with
  | none => false
  | some pg => pg.valid.getD i false

/-- One sub-unit's validity bit of a block of the engine state (false when the
block is absent). -/
def subunitValid (st : FTLState) (bIdx pIdx idx : Nat) : Bool :=
  match alookup st.blocks bIdx with
  | none => false
  | some b => b.bit pIdx idx

/-- The valid-page count of one block of the engine state (0 once the block
has been erased out of the active map). -/
def victimValidCountAfter (st : FTLState) (v : Nat) : Nat :=
  match alookup st.blocks v with
  | none => 0
  | some b => b.validCount

/-- Every PAL page read in the trace comes from block v. -/
def gcReadsOnlyFrom (v : Nat) (evs : List PalEvent) : Bool :=
  evs.all fun e =>
    match e with
    | PalEvent.read b _ => b == v
    | _ => true

/-- The trace holds no PAL erase at all. -/
def hasNoEraseEvent (evs : List PalEvent) : Bool :=
  evs.all fun e =>
    match e with
    | PalEvent.erase _ => false
    | _ => true

/-! Concrete fixtures for the witnesses: a device of 4 blocks, 2 pages per
block, 1 sub-unit per page, 1 write stream. -/

/-- Fixture: the witness device geometry. -/
def exampleParams : Params := ⟨4, 2, 1, 1, 1, true, 100000⟩

/-- Fixture: the same geometry with bad-block threshold 2, so one more erase
retires a block with erase count 1. -/
def exampleParamsRetire : Params := ⟨4, 2, 1, 1, 1, true, 2⟩

/-- Fixture: an empty block with the given index. -/
def freshBlock (i : Nat) : Block := ⟨i, [⟨[0], [false]⟩, ⟨[0], [false]⟩], 0, 0, 0⟩

/-- Fixture: a sealed victim with one valid page (lpn 7 at page 0). -/
def exampleVictim : Block := ⟨0, [⟨[7], [true]⟩, ⟨[8], [false]⟩], 2, 0, 0⟩

/-- Fixture: engine state for the partial-GC witness: victim block 0, current
write block 1, blocks 2 and 3 free, lpn 7 mapped to (0,0). -/
def examplePartialState : FTLState :=
  ⟨[(0, exampleVictim), (1, freshBlock 1)], [freshBlock 2, freshBlock 3], 2,
   [(7, [(0, 0)])], [1], 0, [false], false⟩

/-- Fixture: the state performPartialGC produces from examplePartialState with
budget 3 and victim list [0]: the one valid page moved to block 1 page 0, the
victim erased and reinserted at the tail of the free pool. -/
def examplePartialAfter : FTLState :=
  ⟨[(1, freshBlock 1)],
   [freshBlock 2, freshBlock 3, ⟨0, [⟨[7], [false]⟩, ⟨[8], [false]⟩], 0, 1, 0⟩], 3,
   [(7, [(1, 0)])], [1], 0, [true], false⟩

/-- Fixture: an empty sealed victim with erase count 1. -/
def exampleRetireVictim : Block := ⟨0, [⟨[5], [false]⟩, ⟨[6], [false]⟩], 2, 1, 0⟩

/-- Fixture: free blocks with erase counts 1 and 3 (sorted). -/
def exampleRetireFreeA : Block := ⟨2, [⟨[0], [false]⟩, ⟨[0], [false]⟩], 0, 1, 0⟩

/-- Fixture: second free block, erase count 3. -/
def exampleRetireFreeB : Block := ⟨3, [⟨[0], [false]⟩, ⟨[0], [false]⟩], 0, 3, 0⟩

/-- Fixture: engine state for the erase witnesses. -/
def exampleRetireState : FTLState :=
  ⟨[(0, exampleRetireVictim)], [exampleRetireFreeA, exampleRetireFreeB], 2,
   [], [], 0, [false], false⟩

/-- Fixture: the state eraseInternal produces from exampleRetireState under
threshold 2: the block reaches erase count 2 and is retired, the free pool is
untouched. -/
def exampleRetireAfter : FTLState :=
  ⟨[], [exampleRetireFreeA, exampleRetireFreeB], 2, [], [], 0, [false], false⟩

/-- Fixture: a block with two valid pages (lpns 7 and 8). -/
def exampleTrimBlock : Block := ⟨0, [⟨[7], [true]⟩, ⟨[8], [true]⟩], 2, 0, 0⟩

/-- Fixture: engine state for the trim witness: lpns 7 and 8 mapped. -/
def exampleTrimState : FTLState :=
  ⟨[(0, exampleTrimBlock)], [], 0, [(7, [(0, 0)]), (8, [(0, 1)])], [], 0,
   [false], false⟩

/-- Fixture: the state trimInternal produces from exampleTrimState for lpn 7:
sub-unit (0,0) invalidated, mapping 7 removed. -/
def exampleTrimAfter : FTLState :=
  ⟨[(0, ⟨0, [⟨[7], [false]⟩, ⟨[8], [true]⟩], 2, 0, 0⟩)], [], 0,
   [(8, [(0, 1)])], [], 0, [false], false⟩

/-! Helper lemmas about the Q-table association list. -/

theorem qlookup_qstore_self (t : List (RLQState × List ℚ)) (s : RLQState)
    (v : List ℚ) : qlookup (qstore t s v) s = some v := by
  induction t with
  | nil => simp [qstore, qlookup]
  | cons hd tl ih =>
    obtain ⟨u, w⟩ := hd
    by_cases h : u = s <;> simp [qstore, qlookup, h, ih]

theorem qlookup_qstore_ne (t : List (RLQState × List ℚ)) (s u : RLQState)
    (v : List ℚ) (h : u ≠ s) : qlookup (qstore t s v) u = qlookup t u := by
  have hsu : s ≠ u := fun hh => h hh.symm
  induction t with
  | nil => simp [qstore, qlookup, hsu]
  | cons hd tl ih =>
    obtain ⟨u1, w⟩ := hd
    by_cases h1 : u1 = s
    · subst h1
      simp [qstore, qlookup, hsu]
    · simp [qstore, qlookup, h1, ih]

theorem qlookup_ensure_self (n : Nat) (t : List (RLQState × List ℚ))
    (s : RLQState) :
    qlookup (ensureState n t s) s =
      some ((qlookup t s).getD (List.replicate n 0)) := by
  unfold ensureState
  cases h : qlookup t s with
  | none => simp [h, qlookup_qstore_self]
  | some v => simp [h]

theorem qlookup_ensure_of_ne (n : Nat) (t : List (RLQState × List ℚ))
    (s u : RLQState) (h : u ≠ s) :
    qlookup (ensureState n t s) u = qlookup t u := by
  unfold ensureState
  cases hs : qlookup t s with
  | none => simp [qlookup_qstore_ne t s u _ h]
  | some v => rfl

theorem stateVec_length (q : QTable) (s : RLQState)
    (hwf : ∀ t v, qlookup q.table t = some v → v.length = q.numActions) :
    (q.stateVec s).length = q.numActions := by
  unfold QTable.stateVec
  cases h : qlookup q.table s with
  | none => simp
  | some v => simpa using hwf s v h

theorem getQValue_eq_stateVec (q : QTable) (s : RLQState) (a : Nat)
    (ha : a < q.numActions) : q.getQValue s a = (q.stateVec s).getD a 0 := by
  unfold QTable.getQValue QTable.stateVec
  cases h : qlookup q.table s with
  | none => simp [List.getD, List.getElem?_replicate, ha]
  | some v => simp [ha]

/-- C4: for every Q-table update with state s, action a (within the action
range), reward r and next state sNext, updateQ succeeds and the newly stored
value is the standard Q-learning update
Q[s][a] + alpha * (r + gamma * max Q[sNext] - Q[s][a]), where absent states
read as all-zero action-value vectors. -/
theorem qtable_updateQ_formula (q : QTable) (s sNext : RLQState) (a : Nat)
    (r : ℚ)
    (hwf : ∀ t v, qlookup q.table t = some v → v.length = q.numActions)
    (ha : a < q.numActions) :
    ∃ qNew, q.updateQ s a r sNext = some qNew ∧
      qNew.getQValue s a =
        q.getQValue s a +
          q.alpha * (r + q.gamma * q.maxNext sNext - q.getQValue s a) := by
  have hlen_s : (q.stateVec s).length = q.numActions := stateVec_length q s hwf
  have hlen_n : (q.stateVec sNext).length = q.numActions := stateVec_length q sNext hwf
  -- the two ensured lookups
  have h1 : qlookup (ensureState q.numActions (ensureState q.numActions q.table s) sNext) s =
      some (q.stateVec s) := by
    by_cases hss : sNext = s
    · subst hss
      rw [qlookup_ensure_self]
      rw [qlookup_ensure_self]
      unfold QTable.stateVec
      cases h : qlookup q.table sNext <;> simp [h]
    · rw [qlookup_ensure_of_ne _ _ _ _ (fun hh => hss hh.symm), qlookup_ensure_self]
      unfold QTable.stateVec
      cases h : qlookup q.table s <;> simp [h]
  have h2 : qlookup (ensureState q.numActions (ensureState q.numActions q.table s) sNext) sNext =
      some (q.stateVec sNext) := by
    rw [qlookup_ensure_self]
    by_cases hss : sNext = s
    · subst hss
      rw [qlookup_ensure_self]
      unfold QTable.stateVec
      cases h : qlookup q.table sNext <;> simp [h]
    · rw [qlookup_ensure_of_ne _ _ _ _ hss]
      unfold QTable.stateVec
      cases h : qlookup q.table sNext <;> simp [h]
  obtain ⟨mx, hmx⟩ : ∃ mx, vecMax (q.stateVec sNext) = some mx := by
    cases hv : q.stateVec sNext with
    | nil =>
      rw [hv] at hlen_n
      simp at hlen_n
      omega
    | cons x xs => exact ⟨xs.foldl max x, rfl⟩
  have hmaxNext : q.maxNext sNext = mx := by
    unfold QTable.maxNext
    rw [hmx]
    rfl
  have halen : a < (q.stateVec s).length := by rw [hlen_s]; exact ha
  have hupd : q.updateQ s a r sNext =
      some { q with
        table := qstore (ensureState q.numActions (ensureState q.numActions q.table s) sNext) s
          ((q.stateVec s).set a ((q.stateVec s).get ⟨a, halen⟩ +
            q.alpha * (r + q.gamma * mx - (q.stateVec s).get ⟨a, halen⟩))) } := by
    unfold QTable.updateQ
    simp only [h1, h2, hmx, dif_pos halen]
  refine ⟨_, hupd, ?_⟩
  have hget : (q.stateVec s).get ⟨a, halen⟩ = q.getQValue s a := by
    rw [getQValue_eq_stateVec q s a ha]
    simp [List.getD, List.getElem?_eq_getElem, halen, List.get_eq_getElem]
  have hsetD : ((q.stateVec s).set a ((q.stateVec s).get ⟨a, halen⟩ +
      q.alpha * (r + q.gamma * mx - (q.stateVec s).get ⟨a, halen⟩))).getD a 0 =
      (q.stateVec s).get ⟨a, halen⟩ +
        q.alpha * (r + q.gamma * mx - (q.stateVec s).get ⟨a, halen⟩) := by
    simp [List.getD, List.getElem?_set_self, halen]
  unfold QTable.getQValue at hget ⊢
  simp only [qlookup_qstore_self]
  rw [if_pos ha, hsetD, hget, hmaxNext]

/-- Witness for C4 at a concrete table and update. -/
theorem qtable_updateQ_formula_witness :
    ∃ qNew, (QTable.init (3/10) (4/5) (4/5) 10).updateQ ⟨0, 0, 0⟩ 3 1 ⟨0, 1, 0⟩ =
        some qNew ∧
      qNew.getQValue ⟨0, 0, 0⟩ 3 =
        (QTable.init (3/10) (4/5) (4/5) 10).getQValue ⟨0, 0, 0⟩ 3 +
          (QTable.init (3/10) (4/5) (4/5) 10).alpha *
            (1 + (QTable.init (3/10) (4/5) (4/5) 10).gamma *
                (QTable.init (3/10) (4/5) (4/5) 10).maxNext ⟨0, 1, 0⟩ -
              (QTable.init (3/10) (4/5) (4/5) 10).getQValue ⟨0, 0, 0⟩ 3) :=
  qtable_updateQ_formula (QTable.init (3/10) (4/5) (4/5) 10) ⟨0, 0, 0⟩ ⟨0, 1, 0⟩ 3 1
    (by intro t v h; simp [QTable.init, qlookup] at h) (by decide)

/-- C5 counterexample: with the valid initial value ε = 1/200 ∈ (0,1], a decay
step before 1000 GC operations leaves ε at 1/200 instead of the claimed
max(0.01, ε·0.998) = 0.01, and ε is below the claimed lower bound 0.01. -/
theorem epsilon_decay_counterexample :
    (QTable.init (3/10) (4/5) (1/200) 10).epsilon = 1/200 ∧
    decayEpsilonStep 0 (1/200) = 1/200 ∧
    decayEpsilonStep 0 (1/200) ≠ max (1/100) ((1/200) * (998/1000)) ∧
    ¬ (1/100 ≤ decayEpsilonStep 0 (1/200)) := by
  refine ⟨?_, ?_, ?_, ?_⟩ <;> norm_num [QTable.init, decayEpsilonStep]

/-- C5 (amended): ε starts at initEpsilon validated to (0,1] (default 0.8
outside); a decay step replaces an ε above 0.01 by max(0.01, ε·0.998) (or by
0.01 outright once 1000 GC operations are reached) and leaves an ε at or
below 0.01 unchanged; consequently ε always stays within
[min(0.01, ε₀), ε₀] for the validated initial value ε₀, under both the decay
step and the selectAction clamp. -/
theorem epsilon_schedule_amended (al ga e0 x : ℚ) (n gOps : Nat) :
    (0 < (QTable.init al ga e0 n).epsilon ∧ (QTable.init al ga e0 n).epsilon ≤ 1) ∧
    (1/100 < x → decayEpsilonStep gOps x =
      if gOps ≥ 1000 then 1/100 else max (1/100) (x * (998/1000))) ∧
    (x ≤ 1/100 → decayEpsilonStep gOps x = x) ∧
    (min (1/100) (QTable.init al ga e0 n).epsilon ≤ x →
      x ≤ (QTable.init al ga e0 n).epsilon →
      min (1/100) (QTable.init al ga e0 n).epsilon ≤ decayEpsilonStep gOps x ∧
        decayEpsilonStep gOps x ≤ (QTable.init al ga e0 n).epsilon ∧
        min (1/100) (QTable.init al ga e0 n).epsilon ≤ (selectActionClamp gOps x).2 ∧
        (selectActionClamp gOps x).2 ≤ (QTable.init al ga e0 n).epsilon) := by
  have hval : 0 < (QTable.init al ga e0 n).epsilon ∧
      (QTable.init al ga e0 n).epsilon ≤ 1 := by
    unfold QTable.init
    dsimp only
    split
    · norm_num
    · rename_i h
      push_neg at h
      exact ⟨h.1, h.2⟩
  refine ⟨hval, ?_, ?_, ?_⟩
  · intro hx
    unfold decayEpsilonStep
    by_cases hg : gOps ≥ 1000
    · rw [if_pos ⟨hg, hx⟩, if_pos hg]
    · rw [if_neg (fun hh => hg hh.1), if_pos hx, if_neg hg]
  · intro hx
    unfold decayEpsilonStep
    rw [if_neg (fun hh => absurd hx (not_le_of_lt hh.2)),
        if_neg (not_lt_of_le hx)]
  · intro hlo hhi
    set eps0 := (QTable.init al ga e0 n).epsilon with heps0
    have hd : min (1/100) eps0 ≤ decayEpsilonStep gOps x ∧
        decayEpsilonStep gOps x ≤ eps0 := by
      unfold decayEpsilonStep
      split
      · rename_i h
        refine ⟨min_le_of_left_le le_rfl, ?_⟩
        exact le_trans (le_of_lt h.2) hhi
      · split
        · rename_i h1 h2
          constructor
          · exact min_le_of_left_le (le_max_left _ _)
          · refine max_le (le_trans (le_of_lt h2) hhi) ?_
            have hx0 : 0 < x := lt_trans (by norm_num) h2
            nlinarith
        · exact ⟨hlo, hhi⟩
    refine ⟨hd.1, hd.2, ?_, ?_⟩
    · unfold selectActionClamp
      dsimp only
      split
      · exact min_le_of_left_le le_rfl
      · exact hlo
    · unfold selectActionClamp
      dsimp only
      split
      · rename_i h
        exact le_trans (le_of_lt h.2) hhi
      · exact hhi

/-- Witness for C5 (amended) at ε₀ = 0.8, ε = 1/2, one decay step before
1000 GC operations. -/
theorem epsilon_schedule_amended_witness :
    min (1/100) (QTable.init (3/10) (4/5) (4/5) 10).epsilon ≤ decayEpsilonStep 0 (1/2) ∧
      decayEpsilonStep 0 (1/2) ≤ (QTable.init (3/10) (4/5) (4/5) 10).epsilon ∧
      min (1/100) (QTable.init (3/10) (4/5) (4/5) 10).epsilon ≤ (selectActionClamp 0 (1/2)).2 ∧
      (selectActionClamp 0 (1/2)).2 ≤ (QTable.init (3/10) (4/5) (4/5) 10).epsilon :=
  (epsilon_schedule_amended (3/10) (4/5) (4/5) (1/2) 10 0).2.2.2
    (by norm_num [QTable.init]) (by norm_num [QTable.init])

/-- C1 counterexample: with 100 ring samples and thresholds t1=10, t2=20,
t3=30, a response time of 40 (above t3) earns −1/2 from the baseline variant,
not the −1 the claim states for every RL policy. -/
theorem reward_above_t3_counterexample :
    rlBaselineCalculateReward 100 10 20 30 40 = -(1/2) ∧
    rlBaselineCalculateReward 100 10 20 30 40 ≠ claimRewardLadder 100 10 20 30 40 := by
  refine ⟨?_, ?_⟩ <;> norm_num [rlBaselineCalculateReward, claimRewardLadder]

/-- C1 (amended): the rl_gc policy computes exactly the claimed ladder
(−1 above t3 once 100 samples exist); the baseline and aggressive policies
compute the same ladder except that the band above t3 also earns −0.5; all
three use the claimed fixed ladder below 100 samples. -/
theorem reward_ladders_amended (ringSize t1 t2 t3 r : Nat) :
    rlgcCalculateReward ringSize t1 t2 t3 r = claimRewardLadder ringSize t1 t2 t3 r ∧
    rlBaselineCalculateReward ringSize t1 t2 t3 r =
      claimRewardLadderShallow ringSize t1 t2 t3 r ∧
    rlAggressiveCalculateReward ringSize t1 t2 t3 r =
      claimRewardLadderShallow ringSize t1 t2 t3 r := by
  by_cases h : ringSize < 100
  · have h2 : ¬ (100 ≤ ringSize) := by omega
    refine ⟨?_, ?_, ?_⟩ <;>
      simp [rlgcCalculateReward, rlBaselineCalculateReward, rlAggressiveCalculateReward,
        claimRewardLadder, claimRewardLadderShallow, h, h2, ge_iff_le]
  · have h2 : 100 ≤ ringSize := by omega
    refine ⟨?_, ?_, ?_⟩ <;>
      simp [rlgcCalculateReward, rlBaselineCalculateReward, rlAggressiveCalculateReward,
        claimRewardLadder, claimRewardLadderShallow, h, h2, ge_iff_le]

/-- C8 counterexample: rings far below 100 samples yield nonzero percentiles:
one sample of 500 gives 500 from the lazy-RTGC and baseline calculators, and
ten samples give 9 from the aggressive calculator. -/
theorem percentile_small_ring_counterexample :
    ([500] : List Nat).length < 100 ∧
    lazyGetLatencyPercentile [500] 99 = 500 ∧
    rlBaselineGetLatencyPercentile [500] 99 = 500 ∧
    ([1, 2, 3, 4, 5, 6, 7, 8, 9, 10] : List Nat).length < 100 ∧
    rlAggressiveGetLatencyPercentile [1, 2, 3, 4, 5, 6, 7, 8, 9, 10] 99 = 9 := by
  refine ⟨by norm_num, ?_, ?_, by norm_num, ?_⟩
  · norm_num [lazyGetLatencyPercentile, sortRing]
  · norm_num [rlBaselineGetLatencyPercentile, sortRing]
  · have h8 : Int.toNat 8 = 8 := rfl
    have h9 : Int.toNat 9 = 9 := rfl
    norm_num [rlAggressiveGetLatencyPercentile, sortRing, Rat.floor_def', h8, h9]

/-- C8 (amended): the lazy-RTGC and baseline percentile calculators return 0
exactly on an empty ring; the aggressive calculator returns 0 whenever the
ring holds fewer than 10 samples. -/
theorem percentile_zero_guards (ring : List Nat) (p : ℚ) :
    lazyGetLatencyPercentile [] p = 0 ∧
    rlBaselineGetLatencyPercentile [] p = 0 ∧
    (ring.length < 10 → rlAggressiveGetLatencyPercentile ring p = 0) := by
  refine ⟨?_, ?_, fun h => ?_⟩
  · simp [lazyGetLatencyPercentile]
  · simp [rlBaselineGetLatencyPercentile]
  · simp [rlAggressiveGetLatencyPercentile, h]

/-- Witness for C8 (amended) at a three-sample ring and p = 99. -/
theorem percentile_zero_guards_witness :
    lazyGetLatencyPercentile [] 99 = 0 ∧
    rlBaselineGetLatencyPercentile [] 99 = 0 ∧
    rlAggressiveGetLatencyPercentile [1, 2, 3] 99 = 0 := by
  have h := percentile_zero_guards [1, 2, 3] 99
  exact ⟨h.1, h.2.1, h.2.2 (by norm_num)⟩

/-- C2 counterexample: a read I/O with a zero inter-request interval
(lastRequestTime = tick = 100) and free blocks (5) at or below both the
trigger threshold (10) and tigc (5) performs no GC at all — the intensive
override exists only on the write path. -/
theorem read_zero_interval_counterexample :
    computedInterval ⟨0, 100, 0, 0, 0, ⟨0, 0, 0⟩, ⟨0, 0, 0⟩, false, ⟨0, 0, 0⟩, 0⟩ 100 = 0 ∧
    (5 : Nat) ≤ 5 ∧ (5 : Nat) ≤ 10 ∧
    (readGCDecision 10 5 10 0
        ⟨0, 100, 0, 0, 0, ⟨0, 0, 0⟩, ⟨0, 0, 0⟩, false, ⟨0, 0, 0⟩, 0⟩ 5 100).1 =
      GCOutcome.noGC := by
  refine ⟨by decide, by decide, by decide, by decide⟩

/-- C2 (amended): on a write I/O with free blocks at or below the trigger
threshold, a zero inter-request interval prevents the RL trigger, except that
when free blocks are also at or below tigc a full intensive GC is still
performed; on a read I/O a zero interval prevents GC unconditionally. -/
theorem zero_interval_gc_decision (tgc tigc mpc sel : Nat) (bRM : Bool)
    (rl : RLGCState) (fb tick : Nat)
    (hfb : fb ≤ tgc) (hint : computedInterval rl tick = 0) :
    (writeGCDecision tgc tigc mpc sel bRM rl fb tick).1 =
      (if fb ≤ tigc then GCOutcome.intensiveFullGC else GCOutcome.noGC) ∧
    (readGCDecision tgc tigc mpc sel rl fb tick).1 = GCOutcome.noGC := by
  have hng : ¬ fb > tgc := not_lt_of_le hfb
  obtain ⟨rl1, hst⟩ : ∃ rl1,
      rlgcShouldTriggerGC tgc tigc mpc rl fb tick = (false, rl1) := by
    refine ⟨{ rl with
      currentRequestTime := tick
      prevInterRequestTime := if rl.lastRequestTime > 0 then rl.currInterRequestTime else 0
      currInterRequestTime := if rl.lastRequestTime > 0 then tick - rl.lastRequestTime else 0
      lastRequestTime := tick }, ?_⟩
    unfold rlgcShouldTriggerGC
    rw [if_neg hng]
    unfold computedInterval at hint
    simp only [hint]
    rfl
  constructor
  · unfold writeGCDecision
    rw [if_pos (Or.inr hfb), hst]
    by_cases ht : fb ≤ tigc <;> simp [ht]
  · unfold readGCDecision
    rw [if_pos hfb, hst]

/-- Witness for C2 (amended): a write with free blocks 5 ≤ tigc = 5 and a
zero interval still runs the intensive GC; the read path stays idle. -/
theorem zero_interval_gc_decision_witness :
    (writeGCDecision 10 5 10 0 false
        ⟨0, 100, 0, 0, 0, ⟨0, 0, 0⟩, ⟨0, 0, 0⟩, false, ⟨0, 0, 0⟩, 0⟩ 5 100).1 =
      (if (5 : Nat) ≤ 5 then GCOutcome.intensiveFullGC else GCOutcome.noGC) ∧
    (readGCDecision 10 5 10 0
        ⟨0, 100, 0, 0, 0, ⟨0, 0, 0⟩, ⟨0, 0, 0⟩, false, ⟨0, 0, 0⟩, 0⟩ 5 100).1 =
      GCOutcome.noGC :=
  zero_interval_gc_decision 10 5 10 0 false
    ⟨0, 100, 0, 0, 0, ⟨0, 0, 0⟩, ⟨0, 0, 0⟩, false, ⟨0, 0, 0⟩, 0⟩ 5 100
    (by decide) (by decide)

/-- C10: under the default configuration (numActions = maxPageCopies = 10,
tigc = 5), the intensive branch of getGCAction returns and schedules pending
action maxPageCopies = 10, and the subsequent pending Q-update indexes
Q[s][10] on a vector of numActions = 10 entries — one past the end, embedded
as the out-of-bounds result none. -/
theorem intensive_pending_update_out_of_bounds :
    (rlgcGetGCAction 5 10 0
        ⟨0, 0, 0, 0, 0, ⟨0, 0, 0⟩, ⟨0, 0, 0⟩, false, ⟨0, 0, 0⟩, 0⟩ 5).1 = 10 ∧
    (rlgcGetGCAction 5 10 0
        ⟨0, 0, 0, 0, 0, ⟨0, 0, 0⟩, ⟨0, 0, 0⟩, false, ⟨0, 0, 0⟩, 0⟩ 5).2.pendingAction = 10 ∧
    (QTable.init (3/10) (4/5) (4/5) 10).numActions = 10 ∧
    rlgcProcessPendingUpdate 10 0 0 0 0 (QTable.init (3/10) (4/5) (4/5) 10)
      (rlgcGetGCAction 5 10 0
        ⟨0, 0, 0, 0, 0, ⟨0, 0, 0⟩, ⟨0, 0, 0⟩, false, ⟨0, 0, 0⟩, 0⟩ 5).2 50000 = none := by
  refine ⟨by decide, by decide, by decide, ?_⟩
  unfold rlgcProcessPendingUpdate rlgcGetGCAction rlgcSchedulePending QTable.updateQ
  simp [QTable.init, ensureState, qlookup, qstore, vecMax, rlgcCalculateReward]

/-! Helper lemmas about the Nat-keyed association lists. -/

theorem alookup_astore_self {β : Type} (l : List (Nat × β)) (k : Nat) (v : β) :
    alookup (astore l k v) k = some v := by
  induction l with
  | nil => simp [astore, alookup]
  | cons hd tl ih =>
    obtain ⟨k1, v1⟩ := hd
    by_cases h : k1 = k <;> simp [astore, alookup, h, ih]

theorem alookup_astore_ne {β : Type} (l : List (Nat × β)) (k k2 : Nat) (v : β)
    (h : k2 ≠ k) : alookup (astore l k v) k2 = alookup l k2 := by
  have hk : k ≠ k2 := fun hh => h hh.symm
  induction l with
  | nil => simp [astore, alookup, hk]
  | cons hd tl ih =>
    obtain ⟨k1, v1⟩ := hd
    by_cases h1 : k1 = k
    · subst h1
      simp [astore, alookup, hk]
    · simp [astore, alookup, h1, ih]

theorem alookup_aremove_self {β : Type} (l : List (Nat × β)) (k : Nat) :
    alookup (aremove l k) k = none := by
  induction l with
  | nil => simp [aremove, alookup]
  | cons hd tl ih =>
    obtain ⟨k1, v1⟩ := hd
    by_cases h : k1 = k <;> simp [aremove, alookup, h, ih]

theorem alookup_aremove_ne {β : Type} (l : List (Nat × β)) (k k2 : Nat)
    (h : k2 ≠ k) : alookup (aremove l k) k2 = alookup l k2 := by
  induction l with
  | nil => simp [aremove, alookup]
  | cons hd tl ih =>
    obtain ⟨k1, v1⟩ := hd
    by_cases h1 : k1 = k
    · subst h1
      have hne : ¬ (k1 = k2) := fun hh => h hh.symm
      simp [aremove, alookup, hne, ih]
    · simp [aremove, alookup, h1, ih]

/-! C7: ordered reinsertion into the free-block list. -/

theorem mem_insertFreeRevAux (e : Nat) (b y : Block) (l : List Block) :
    y ∈ insertFreeRevAux e b l ↔ y = b ∨ y ∈ l := by
  induction l with
  | nil => simp [insertFreeRevAux]
  | cons x xs ih =>
    by_cases h : x.eraseCount ≤ e <;>
      simp [insertFreeRevAux, h, ih] <;> tauto

theorem pairwise_insertFreeRevAux (b : Block) (l : List Block)
    (hl : l.Pairwise (fun x y => y.eraseCount ≤ x.eraseCount)) :
    (insertFreeRevAux b.eraseCount b l).Pairwise
      (fun x y => y.eraseCount ≤ x.eraseCount) := by
  induction l with
  | nil => simp [insertFreeRevAux]
  | cons x xs ih =>
    rw [List.pairwise_cons] at hl
    obtain ⟨hx, hxs⟩ := hl
    by_cases h : x.eraseCount ≤ b.eraseCount
    · rw [insertFreeRevAux, if_pos h, List.pairwise_cons]
      refine ⟨?_, ?_⟩
      · intro y hy
        rcases List.mem_cons.mp hy with hy | hy
        · subst hy; exact h
        · exact le_trans (hx y hy) h
      · rw [List.pairwise_cons]
        exact ⟨hx, hxs⟩
    · rw [insertFreeRevAux, if_neg h, List.pairwise_cons]
      refine ⟨?_, ih hxs⟩
      intro y hy
      rcases (mem_insertFreeRevAux b.eraseCount b y xs).mp hy with hy | hy
      · subst hy
        exact le_of_lt (lt_of_not_le h)
      · exact hx y hy

theorem sorted_insertFreeBlock (l : List Block) (b : Block)
    (hl : l.Pairwise (fun x y => x.eraseCount ≤ y.eraseCount)) :
    (insertFreeBlock l b).Pairwise (fun x y => x.eraseCount ≤ y.eraseCount) := by
  unfold insertFreeBlock
  rw [List.pairwise_reverse]
  refine pairwise_insertFreeRevAux b l.reverse ?_
  rw [List.pairwise_reverse]
  exact hl

/-- C7: an erase that succeeds keeps the free-block list sorted non-decreasing
by erase count, and a block whose new erase count has reached the bad-block
threshold is not reinserted into the free pool (the free list and its count
are untouched). -/
theorem eraseInternal_free_pool (P : Params) (st stNew : FTLState)
    (bid : Nat) (b : Block) (evs : List PalEvent)
    (hb : alookup st.blocks bid = some b)
    (hsorted : st.freeBlocks.Pairwise (fun x y => x.eraseCount ≤ y.eraseCount))
    (hok : eraseInternal P bid st = .ok (stNew, evs)) :
    stNew.freeBlocks.Pairwise (fun x y => x.eraseCount ≤ y.eraseCount) ∧
    (P.badBlockThreshold ≤ b.eraseCount + 1 →
      stNew.freeBlocks = st.freeBlocks ∧ stNew.nFreeBlocks = st.nFreeBlocks) := by
  simp only [eraseInternal, hb] at hok
  by_cases hv : b.validCount ≠ 0
  · rw [if_pos hv] at hok
    exact absurd hok (by simp)
  · rw [if_neg hv] at hok
    by_cases hthr : b.eraseAll.eraseCount < P.badBlockThreshold
    · rw [if_pos hthr] at hok
      rw [Except.ok.injEq, Prod.mk.injEq] at hok
      obtain ⟨hst, hevs⟩ := hok
      subst hst
      refine ⟨?_, ?_⟩
      · exact sorted_insertFreeBlock st.freeBlocks b.eraseAll hsorted
      · intro hge
        have hc : b.eraseAll.eraseCount = b.eraseCount + 1 := rfl
        omega
    · rw [if_neg hthr] at hok
      rw [Except.ok.injEq, Prod.mk.injEq] at hok
      obtain ⟨hst, hevs⟩ := hok
      subst hst
      exact ⟨hsorted, fun _ => ⟨rfl, rfl⟩⟩

/-- Witness for C7: erasing the empty block 0 (erase count 1) under bad-block
threshold 2 retires it — the sorted free pool is unchanged. -/
theorem eraseInternal_free_pool_witness :
    exampleRetireAfter.freeBlocks.Pairwise (fun x y => x.eraseCount ≤ y.eraseCount) ∧
    exampleRetireAfter.freeBlocks = exampleRetireState.freeBlocks ∧
    exampleRetireAfter.nFreeBlocks = exampleRetireState.nFreeBlocks := by
  have h := eraseInternal_free_pool exampleParamsRetire exampleRetireState
    exampleRetireAfter 0 exampleRetireVictim [PalEvent.erase 0]
    (by decide) (by decide) rfl
  exact ⟨h.1, (h.2 (by decide)).1, (h.2 (by decide)).2⟩

/-! C9: block-bit lemmas and the trim/read round trip. -/

theorem getD_set_false (l : List Bool) (i : Nat) :
    (l.set i false).getD i false = false := by
  by_cases h : i < l.length
  · simp [List.getD, List.getElem?_set_self, h]
  · have : (l.set i false).length ≤ i := by
      simp [List.length_set]
      omega
    simp [List.getD, List.getElem?_eq_none this]

theorem get?_some_lt {α : Type} (l : List α) (i : Nat) (x : α)
    (h : l.get? i = some x) : i < l.length := by
  rw [List.get?_eq_getElem? l i] at h
  exact (List.getElem?_eq_some.mp h).1

theorem get?_set_self {α : Type} (l : List α) (i : Nat) (x : α)
    (h : i < l.length) : (l.set i x).get? i = some x := by
  rw [List.get?_eq_getElem? (l.set i x) i]
  exact List.getElem?_set_self (by simpa using h)

theorem get?_set_ne {α : Type} (l : List α) (i j : Nat) (x : α) (h : i ≠ j) :
    (l.set i x).get? j = l.get? j := by
  rw [List.get?_eq_getElem? (l.set i x) j, List.get?_eq_getElem? l j]
  exact List.getElem?_set_ne h

theorem bit_invalidate_self (b : Block) (p i : Nat) :
    (b.invalidate p i).bit p i = false := by
  unfold Block.invalidate
  cases hp : b.pages.get? p with
  | none =>
    unfold Block.bit
    rw [hp]
  | some pg =>
    unfold Block.bit
    dsimp only
    have hlt : p < b.pages.length := get?_some_lt _ _ _ hp
    rw [get?_set_self _ _ _ hlt]
    exact getD_set_false pg.valid i

theorem bit_invalidate_mono (b : Block) (p1 i1 p i : Nat)
    (h : (b.invalidate p1 i1).bit p i = true) : b.bit p i = true := by
  unfold Block.invalidate at h
  cases hp1 : b.pages.get? p1 with
  | none => rwa [hp1] at h
  | some pg1 =>
    rw [hp1] at h
    unfold Block.bit at h ⊢
    dsimp only at h
    by_cases hpp : p1 = p
    · subst hpp
      have hlt : p1 < b.pages.length := get?_some_lt _ _ _ hp1
      rw [get?_set_self _ _ _ hlt] at h
      dsimp only at h
      rw [hp1]
      by_cases hii : i1 = i
      · subst hii
        rw [getD_set_false] at h
        exact absurd h (by simp)
      · have hne : ({ pg1 with valid := pg1.valid.set i1 false } : Page).valid.getD i false =
            pg1.valid.getD i false := by
          dsimp only
          simp only [List.getD]
          rw [get?_set_ne _ _ _ _ hii]
        rwa [hne] at h
    · rw [get?_set_ne _ _ _ _ hpp] at h
      exact h

theorem alookup_updateBlock_other (st : FTLState) (bid k : Nat) (f : Block → Block)
    (h : k ≠ bid) : alookup (updateBlock st bid f).blocks k = alookup st.blocks k := by
  unfold updateBlock
  cases hb : alookup st.blocks bid with
  | none => rfl
  | some b => simp [alookup_astore_ne _ _ _ _ h]

theorem alookup_updateBlock_self (st : FTLState) (bid : Nat) (f : Block → Block)
    (b : Block) (hb : alookup st.blocks bid = some b) :
    alookup (updateBlock st bid f).blocks bid = some (f b) := by
  unfold updateBlock
  rw [hb]
  simp [alookup_astore_self]

theorem updateBlock_isSome (st : FTLState) (bid k : Nat) (f : Block → Block)
    (h : (alookup st.blocks k).isSome = true) :
    (alookup (updateBlock st bid f).blocks k).isSome = true := by
  by_cases hk : k = bid
  · subst hk
    cases hb : alookup st.blocks k with
    | none => rw [hb] at h; exact absurd h (by simp)
    | some b => rw [alookup_updateBlock_self st k f b hb]; rfl
  · rwa [alookup_updateBlock_other st bid k f hk]

theorem subunitValid_updateBlock_invalidate_mono (st : FTLState)
    (bid p1 i1 bIdx pIdx idx : Nat)
    (h : subunitValid (updateBlock st bid (fun b => b.invalidate p1 i1)) bIdx pIdx idx = true) :
    subunitValid st bIdx pIdx idx = true := by
  by_cases hk : bIdx = bid
  · subst hk
    cases hb : alookup st.blocks bIdx with
    | none =>
      have hid : updateBlock st bIdx (fun b => b.invalidate p1 i1) = st := by
        unfold updateBlock
        rw [hb]
      rwa [hid] at h
    | some b =>
      unfold subunitValid at h ⊢
      rw [alookup_updateBlock_self st bIdx _ b hb] at h
      rw [hb]
      exact bit_invalidate_mono b p1 i1 pIdx idx h
  · unfold subunitValid at h ⊢
    rwa [alookup_updateBlock_other st bid bIdx _ hk] at h

theorem trimSubunits_isSome (P : Params) (m : List (Nat × Nat)) :
    ∀ (idxs : List Nat) (st st2 : FTLState) (k : Nat),
      trimSubunits P m idxs st = .ok st2 →
      (alookup st.blocks k).isSome = true →
      (alookup st2.blocks k).isSome = true := by
  intro idxs
  induction idxs with
  | nil =>
    intro st st2 k hok hk
    unfold trimSubunits at hok
    rw [Except.ok.injEq] at hok
    subst hok
    exact hk
  | cons i rest ih =>
    intro st st2 k hok hk
    unfold trimSubunits at hok
    cases hm : m.get? i with
    | none =>
      simp only [hm] at hok
      exact absurd hok (by simp)
    | some mp =>
      simp only [hm] at hok
      by_cases hrange : mp.1 ≥ P.totalPhysicalBlocks ∨ mp.2 ≥ P.pagesInBlock
      · rw [if_pos hrange] at hok
        exact ih st st2 k hok hk
      · rw [if_neg hrange] at hok
        cases hb : alookup st.blocks mp.1 with
        | none =>
          rw [hb] at hok
          exact ih st st2 k hok hk
        | some b =>
          rw [hb] at hok
          exact ih _ st2 k hok (updateBlock_isSome st mp.1 k _ hk)

theorem trimSubunits_preserves_invalid (P : Params) (m : List (Nat × Nat)) :
    ∀ (idxs : List Nat) (st st2 : FTLState) (bIdx pIdx idx : Nat),
      trimSubunits P m idxs st = .ok st2 →
      subunitValid st bIdx pIdx idx = false →
      subunitValid st2 bIdx pIdx idx = false := by
  intro idxs
  induction idxs with
  | nil =>
    intro st st2 bIdx pIdx idx hok hv
    unfold trimSubunits at hok
    rw [Except.ok.injEq] at hok
    subst hok
    exact hv
  | cons i rest ih =>
    intro st st2 bIdx pIdx idx hok hv
    unfold trimSubunits at hok
    cases hm : m.get? i with
    | none =>
      simp only [hm] at hok
      exact absurd hok (by simp)
    | some mp =>
      simp only [hm] at hok
      by_cases hrange : mp.1 ≥ P.totalPhysicalBlocks ∨ mp.2 ≥ P.pagesInBlock
      · rw [if_pos hrange] at hok
        exact ih st st2 bIdx pIdx idx hok hv
      · rw [if_neg hrange] at hok
        cases hb : alookup st.blocks mp.1 with
        | none =>
          rw [hb] at hok
          exact ih st st2 bIdx pIdx idx hok hv
        | some b =>
          rw [hb] at hok
          refine ih _ st2 bIdx pIdx idx hok ?_
          cases hv2 : subunitValid (updateBlock st mp.1 (fun bb => bb.invalidate mp.2 i))
              bIdx pIdx idx with
          | false => rfl
          | true =>
            exact absurd (subunitValid_updateBlock_invalidate_mono st mp.1 mp.2 i
              bIdx pIdx idx hv2) (by rw [hv]; simp)

theorem trimSubunits_invalidates (P : Params) (m : List (Nat × Nat)) :
    ∀ (idxs : List Nat) (st st2 : FTLState) (idx bIdx pIdx : Nat),
      trimSubunits P m idxs st = .ok st2 →
      idx ∈ idxs →
      m.get? idx = some (bIdx, pIdx) →
      bIdx < P.totalPhysicalBlocks → pIdx < P.pagesInBlock →
      (alookup st.blocks bIdx).isSome = true →
      subunitValid st2 bIdx pIdx idx = false := by
  intro idxs
  induction idxs with
  | nil =>
    intro st st2 idx bIdx pIdx hok hmem
    simp at hmem
  | cons i rest ih =>
    intro st st2 idx bIdx pIdx hok hmem hmap hbr hpr hsome
    unfold trimSubunits at hok
    rcases List.mem_cons.mp hmem with hi | hi
    · subst hi
      simp only [hmap] at hok
      have hnr : ¬ (bIdx ≥ P.totalPhysicalBlocks ∨ pIdx ≥ P.pagesInBlock) := by
        push_neg
        exact ⟨hbr, hpr⟩
      rw [if_neg hnr] at hok
      cases hb : alookup st.blocks bIdx with
      | none =>
        rw [hb] at hsome
        exact absurd hsome (by simp)
      | some b =>
        rw [hb] at hok
        have hfalse : subunitValid (updateBlock st bIdx (fun bb => bb.invalidate pIdx idx))
            bIdx pIdx idx = false := by
          unfold subunitValid
          rw [alookup_updateBlock_self st bIdx _ b hb]
          exact bit_invalidate_self b pIdx idx
        exact trimSubunits_preserves_invalid P m rest _ st2 bIdx pIdx idx hok hfalse
    · cases hm2 : m.get? i with
      | none =>
        simp only [hm2] at hok
        exact absurd hok (by simp)
      | some mp =>
        simp only [hm2] at hok
        by_cases hrange : mp.1 ≥ P.totalPhysicalBlocks ∨ mp.2 ≥ P.pagesInBlock
        · rw [if_pos hrange] at hok
          exact ih st st2 idx bIdx pIdx hok hi hmap hbr hpr hsome
        · rw [if_neg hrange] at hok
          cases hb : alookup st.blocks mp.1 with
          | none =>
            rw [hb] at hok
            exact ih st st2 idx bIdx pIdx hok hi hmap hbr hpr hsome
          | some b =>
            rw [hb] at hok
            exact ih _ st2 idx bIdx pIdx hok hi hmap hbr hpr
              (updateBlock_isSome st mp.1 bIdx _ hsome)

/-- C9: trimming a mapped lpn removes its mapping entry and invalidates every
in-range mapped sub-unit whose block exists; a subsequent read of that lpn —
like a read of any never-written lpn — issues no PAL request and leaves the
engine state unchanged. -/
theorem trim_then_read (P : Params) (st stAfter : FTLState) (lpn lpn2 : Nat)
    (m : List (Nat × Nat)) (tick : Nat) (ioFlag : List Bool)
    (idx bIdx pIdx : Nat)
    (hm : alookup st.table lpn = some m)
    (hok : trimInternal P lpn st = .ok stAfter)
    (hmap : m.get? idx = some (bIdx, pIdx))
    (hidx : idx < P.bitsetSize)
    (hbIn : bIdx < P.totalPhysicalBlocks) (hpIn : pIdx < P.pagesInBlock)
    (hpresent : (alookup st.blocks bIdx).isSome = true)
    (hun : alookup st.table lpn2 = none) :
    alookup stAfter.table lpn = none ∧
    subunitValid stAfter bIdx pIdx idx = false ∧
    readInternal P lpn ioFlag tick stAfter = .ok (stAfter, []) ∧
    readInternal P lpn2 ioFlag tick st = .ok (st, []) := by
  unfold trimInternal at hok
  simp only [hm] at hok
  cases hts : trimSubunits P m (List.range P.bitsetSize) st with
  | error e =>
    rw [hts] at hok
    exact absurd hok (by simp)
  | ok st1 =>
    rw [hts] at hok
    rw [Except.ok.injEq] at hok
    subst hok
    have hnone : alookup (aremove st1.table lpn) lpn = none := alookup_aremove_self _ _
    refine ⟨hnone, ?_, ?_, ?_⟩
    · exact trimSubunits_invalidates P m (List.range P.bitsetSize) st st1 idx bIdx pIdx
        hts (List.mem_range.mpr hidx) hmap hbIn hpIn hpresent
    · simp [readInternal, hnone]
    · simp [readInternal, hun]

/-- Witness for C9: trim lpn 7 of the two-page fixture, then read it back. -/
theorem trim_then_read_witness :
    alookup exampleTrimAfter.table 7 = none ∧
    subunitValid exampleTrimAfter 0 0 0 = false ∧
    readInternal exampleParams 7 [true] 5 exampleTrimAfter = .ok (exampleTrimAfter, []) ∧
    readInternal exampleParams 99 [true] 5 exampleTrimState = .ok (exampleTrimState, []) :=
  trim_then_read exampleParams exampleTrimState exampleTrimAfter 7 99 [(0, 0)] 5 [true]
    0 0 0 (by decide) rfl (by decide) (by decide) (by decide) (by decide) (by decide)
    (by decide)

/-! C3 and C6: allocation, erase and the partial-GC loop. -/

theorem eraseInternal_ok_of_empty (P : Params) (st : FTLState) (bid : Nat)
    (b : Block) (hb : alookup st.blocks bid = some b) (hv : b.validCount = 0) :
    ∃ st2, eraseInternal P bid st = .ok (st2, [PalEvent.erase bid]) ∧
      alookup st2.blocks bid = none := by
  unfold eraseInternal
  simp only [hb]
  rw [if_neg (by simp [hv])]
  by_cases hthr : b.eraseAll.eraseCount < P.badBlockThreshold
  · rw [if_pos hthr]
    exact ⟨_, rfl, alookup_aremove_self _ _⟩
  · rw [if_neg hthr]
    exact ⟨_, rfl, alookup_aremove_self _ _⟩

theorem eraseInternal_vpr_iff (P : Params) (st : FTLState) (bid : Nat) :
    eraseInternal P bid st = .error Panic.validPagesRemain ↔
      ∃ b, alookup st.blocks bid = some b ∧ b.validCount ≠ 0 := by
  constructor
  · intro h
    unfold eraseInternal at h
    cases hb : alookup st.blocks bid with
    | none =>
      rw [hb] at h
      simp at h
    | some b =>
      simp only [hb] at h
      by_cases hv : b.validCount ≠ 0
      · exact ⟨b, rfl, hv⟩
      · rw [if_neg hv] at h
        by_cases hthr : b.eraseAll.eraseCount < P.badBlockThreshold
        · rw [if_pos hthr] at h
          simp at h
        · rw [if_neg hthr] at h
          simp at h
  · intro ⟨b, hb, hv⟩
    unfold eraseInternal
    simp only [hb]
    rw [if_pos hv]

theorem getFreeBlock_no_vpr (P : Params) (i : Nat) (st : FTLState) :
    getFreeBlock P i st ≠ .error Panic.validPagesRemain := by
  intro h
  unfold getFreeBlock at h
  dsimp only at h
  split at h
  · simp at h
  · split at h
    · split at h
      · simp at h
      · split at h
        · simp at h
        · simp at h
    · simp at h

theorem getFreeBlock_presence (P : Params) (i k : Nat) (st st2 : FTLState)
    (nb : Nat) (b : Block)
    (hok : getFreeBlock P i st = .ok (nb, st2))
    (hb : alookup st.blocks k = some b) :
    alookup st2.blocks k = some b := by
  unfold getFreeBlock at hok
  dsimp only at hok
  split at hok
  · simp at hok
  · split at hok
    · split at hok
      · simp at hok
      · split at hok
        · simp at hok
        · rename_i blk hget hnotSome
          rw [Except.ok.injEq, Prod.mk.injEq] at hok
          obtain ⟨hnb, hst2⟩ := hok
          subst hst2
          have hne : k ≠ blk.blockIndex := by
            intro hkk
            subst hkk
            rw [hb] at hnotSome
            simp at hnotSome
          simpa [alookup_astore_ne _ _ _ _ hne] using hb
    · simp at hok

theorem advanceStream_blocks (P : Params) (io : List Bool) (st : FTLState) :
    (advanceStream P io st).blocks = st.blocks := by
  unfold advanceStream
  split <;> rfl

theorem getLastFreeBlock_no_vpr (P : Params) (io : List Bool) (st : FTLState) :
    getLastFreeBlock P io st ≠ .error Panic.validPagesRemain := by
  intro h
  unfold getLastFreeBlock at h
  dsimp only at h
  split at h
  · simp at h
  · split at h
    · simp at h
    · split at h
      · split at h
        · rename_i heq
          injection h with h2
          exact getFreeBlock_no_vpr P _ _ (by rw [heq, h2])
        · simp at h
      · simp at h

theorem getLastFreeBlock_presence (P : Params) (io : List Bool) (k : Nat)
    (st st2 : FTLState) (nb : Nat) (b : Block)
    (hok : getLastFreeBlock P io st = .ok (nb, st2))
    (hb : alookup st.blocks k = some b) :
    alookup st2.blocks k = some b := by
  have hb1 : alookup (advanceStream P io st).blocks k = some b := by
    rw [advanceStream_blocks]
    exact hb
  unfold getLastFreeBlock at hok
  dsimp only at hok
  split at hok
  · simp at hok
  · split at hok
    · simp at hok
    · split at hok
      · split at hok
        · simp at hok
        · rename_i newBid2 stMid hmid
          rw [Except.ok.injEq, Prod.mk.injEq] at hok
          obtain ⟨hnb, hst2⟩ := hok
          subst hst2
          exact getFreeBlock_presence P _ k _ stMid newBid2 b hmid hb1
      · rw [Except.ok.injEq, Prod.mk.injEq] at hok
        obtain ⟨hnb, hst2⟩ := hok
        subst hst2
        exact hb1

theorem ppgcCopySubunits_no_vpr (victimID pageIndex newBlockID newPageID : Nat)
    (lpns : List Nat) (validBits : List Bool) :
    ∀ (idxs : List Nat) (st : FTLState),
      ppgcCopySubunits victimID pageIndex newBlockID newPageID lpns validBits idxs st ≠
        .error Panic.validPagesRemain := by
  intro idxs
  induction idxs with
  | nil =>
    intro st h
    simp [ppgcCopySubunits] at h
  | cons i rest ih =>
    intro st h
    unfold ppgcCopySubunits at h
    split at h
    · cases htab : alookup st.table (lpns.getD i 0) with
      | none =>
        simp only [htab] at h
        exact ih _ h
      | some mapping =>
        simp only [htab] at h
        cases hmg : mapping.get? i with
        | none =>
          simp only [hmg] at h
          simp at h
        | some mp =>
          simp only [hmg] at h
          exact ih _ h
    · exact ih _ h

theorem ppgcCopySubunits_presence (victimID pageIndex newBlockID newPageID k : Nat)
    (lpns : List Nat) (validBits : List Bool) :
    ∀ (idxs : List Nat) (st st2 : FTLState),
      ppgcCopySubunits victimID pageIndex newBlockID newPageID lpns validBits idxs st =
        .ok st2 →
      (alookup st.blocks k).isSome = true →
      (alookup st2.blocks k).isSome = true := by
  intro idxs
  induction idxs with
  | nil =>
    intro st st2 hok hk
    unfold ppgcCopySubunits at hok
    rw [Except.ok.injEq] at hok
    subst hok
    exact hk
  | cons i rest ih =>
    intro st st2 hok hk
    unfold ppgcCopySubunits at hok
    split at hok
    · cases htab : alookup st.table (lpns.getD i 0) with
      | none =>
        simp only [htab] at hok
        exact ih _ st2 hok (updateBlock_isSome _ _ _ _ hk)
      | some mapping =>
        simp only [htab] at hok
        cases hmg : mapping.get? i with
        | none =>
          simp only [hmg] at hok
          simp at hok
        | some mp =>
          simp only [hmg] at hok
          exact ih _ st2 hok (updateBlock_isSome _ _ _ _ hk)
    · exact ih _ st2 hok hk

theorem ppgcLoop_ok_spec (P : Params) (victimID n k : Nat) (f : PalEvent → Bool)
    (hread : ∀ p, f (PalEvent.read victimID p) = true)
    (hwrite : ∀ bq p, f (PalEvent.write bq p) = true) :
    ∀ (idxs : List Nat) (c0 : Nat) (st0 : FTLState) (evs0 : List PalEvent)
      (c : Nat) (st1 : FTLState) (evs1 : List PalEvent),
      ppgcLoop P victimID n idxs c0 st0 evs0 = .ok (c, st1, evs1) →
      (c0 ≤ n → c ≤ n) ∧
      (evs0.all f = true → evs1.all f = true) ∧
      ((alookup st0.blocks k).isSome = true → (alookup st1.blocks k).isSome = true) := by
  intro idxs
  induction idxs with
  | nil =>
    intro c0 st0 evs0 c st1 evs1 hok
    unfold ppgcLoop at hok
    rw [Except.ok.injEq, Prod.mk.injEq] at hok
    obtain ⟨hc, hok2⟩ := hok
    rw [Prod.mk.injEq] at hok2
    obtain ⟨hst, hevs⟩ := hok2
    subst hc
    subst hst
    subst hevs
    exact ⟨fun h => h, fun h => h, fun h => h⟩
  | cons i rest ih =>
    intro c0 st0 evs0 c st1 evs1 hok
    unfold ppgcLoop at hok
    by_cases hbud : c0 ≥ n
    · rw [if_pos hbud] at hok
      rw [Except.ok.injEq, Prod.mk.injEq] at hok
      obtain ⟨hc, hok2⟩ := hok
      rw [Prod.mk.injEq] at hok2
      obtain ⟨hst, hevs⟩ := hok2
      subst hc
      subst hst
      subst hevs
      exact ⟨fun h => h, fun h => h, fun h => h⟩
    · rw [if_neg hbud] at hok
      cases hvb : alookup st0.blocks victimID with
      | none => simp [hvb] at hok
      | some victim =>
        simp only [hvb] at hok
        by_cases hvc : victim.validCount = 0
        · rw [if_pos hvc] at hok
          rw [Except.ok.injEq, Prod.mk.injEq] at hok
          obtain ⟨hc, hok2⟩ := hok
          rw [Prod.mk.injEq] at hok2
          obtain ⟨hst, hevs⟩ := hok2
          subst hc
          subst hst
          subst hevs
          exact ⟨fun h => h, fun h => h, fun h => h⟩
        · rw [if_neg hvc] at hok
          cases hpi : victim.getPageInfo i with
          | none =>
            simp only [hpi] at hok
            exact ih c0 st0 evs0 c st1 evs1 hok
          | some pr =>
            obtain ⟨lpns, validBits⟩ := pr
            simp only [hpi] at hok
            by_cases hany : bitsAny validBits = false
            · rw [if_pos hany] at hok
              exact ih c0 st0 evs0 c st1 evs1 hok
            · rw [if_neg hany] at hok
              cases hal : getLastFreeBlock P validBits st0 with
              | error e => simp [hal] at hok
              | ok pr2 =>
                obtain ⟨newBlockID, stA⟩ := pr2
                simp only [hal] at hok
                cases hnb : alookup stA.blocks newBlockID with
                | none => simp [hnb] at hok
                | some newBlock =>
                  simp only [hnb] at hok
                  cases hcs : ppgcCopySubunits victimID i newBlockID
                      newBlock.nextWritePageIndex lpns validBits
                      (List.range P.ioUnitInPage) stA with
                  | error e => simp [hcs] at hok
                  | ok stB =>
                    simp only [hcs] at hok
                    have hrec := ih (c0 + 1) stB
                      (evs0 ++ [PalEvent.read victimID i,
                        PalEvent.write newBlockID newBlock.nextWritePageIndex])
                      c st1 evs1 hok
                    refine ⟨?_, ?_, ?_⟩
                    · intro hc0
                      exact hrec.1 (by omega)
                    · intro hall
                      refine hrec.2.1 ?_
                      rw [List.all_append]
                      simp [hall, hread, hwrite]
                    · intro hsome
                      refine hrec.2.2 ?_
                      refine ppgcCopySubunits_presence _ _ _ _ k _ _ _ stA stB hcs ?_
                      obtain ⟨b, hb⟩ := Option.isSome_iff_exists.mp hsome
                      rw [getLastFreeBlock_presence P validBits k st0 stA newBlockID b hal hb]
                      rfl

theorem ppgcLoop_no_vpr (P : Params) (victimID n : Nat) :
    ∀ (idxs : List Nat) (c0 : Nat) (st0 : FTLState) (evs0 : List PalEvent),
      ppgcLoop P victimID n idxs c0 st0 evs0 ≠ .error Panic.validPagesRemain := by
  intro idxs
  induction idxs with
  | nil =>
    intro c0 st0 evs0 h
    simp [ppgcLoop] at h
  | cons i rest ih =>
    intro c0 st0 evs0 h
    unfold ppgcLoop at h
    by_cases hbud : c0 ≥ n
    · rw [if_pos hbud] at h
      simp at h
    · rw [if_neg hbud] at h
      cases hvb : alookup st0.blocks victimID with
      | none => simp [hvb] at h
      | some victim =>
        simp only [hvb] at h
        by_cases hvc : victim.validCount = 0
        · rw [if_pos hvc] at h
          simp at h
        · rw [if_neg hvc] at h
          cases hpi : victim.getPageInfo i with
          | none =>
            simp only [hpi] at h
            exact ih _ _ _ h
          | some pr =>
            obtain ⟨lpns, validBits⟩ := pr
            simp only [hpi] at h
            by_cases hany : bitsAny validBits = false
            · rw [if_pos hany] at h
              exact ih _ _ _ h
            · rw [if_neg hany] at h
              cases hal : getLastFreeBlock P validBits st0 with
              | error e =>
                simp only [hal] at h
                injection h with he
                exact getLastFreeBlock_no_vpr P validBits st0 (by rw [hal, he])
              | ok pr2 =>
                obtain ⟨newBlockID, stA⟩ := pr2
                simp only [hal] at h
                cases hnb : alookup stA.blocks newBlockID with
                | none => simp [hnb] at h
                | some newBlock =>
                  simp only [hnb] at h
                  cases hcs : ppgcCopySubunits victimID i newBlockID
                      newBlock.nextWritePageIndex lpns validBits
                      (List.range P.ioUnitInPage) stA with
                  | error e =>
                    simp only [hcs] at h
                    injection h with he
                    exact ppgcCopySubunits_no_vpr _ _ _ _ _ _ _ stA (by rw [hcs, he])
                  | ok stB =>
                    simp only [hcs] at h
                    exact ih _ _ _ h

/-- C3: a partial-GC invocation with positive budget n that returns copies at
most n pages, issues PAL page reads only against the head victim of the
victim list, and erases that victim exactly when its valid-page count has
reached zero by the end of the call. -/
theorem performPartialGC_spec (P : Params) (n : Nat) (victims sel : List Nat)
    (st stNew : FTLState) (victimID : Nat) (vrest : List Nat) (b0 : Block)
    (copied : Nat) (evs : List PalEvent)
    (hn : 0 < n)
    (hv : (if victims = [] then sel else victims) = victimID :: vrest)
    (hb : alookup st.blocks victimID = some b0)
    (hok : performPartialGC P n victims sel st = .ok (copied, stNew, evs)) :
    copied ≤ n ∧
    gcReadsOnlyFrom victimID evs = true ∧
    (PalEvent.erase victimID ∈ evs ↔ victimValidCountAfter stNew victimID = 0) := by
  unfold performPartialGC at hok
  rw [if_neg (by omega)] at hok
  rw [hv] at hok
  simp only [hb] at hok
  by_cases hvc : b0.validCount = 0
  · rw [if_pos hvc] at hok
    obtain ⟨st2, hEr, hNone⟩ := eraseInternal_ok_of_empty P st victimID b0 hb hvc
    simp only [hEr] at hok
    rw [Except.ok.injEq, Prod.mk.injEq] at hok
    obtain ⟨hc, hok2⟩ := hok
    rw [Prod.mk.injEq] at hok2
    obtain ⟨hst, hevs⟩ := hok2
    subst hc
    subst hst
    subst hevs
    have hafter : victimValidCountAfter st2 victimID = 0 := by
      unfold victimValidCountAfter
      rw [hNone]
    exact ⟨by omega, by simp [gcReadsOnlyFrom], by simp [hafter]⟩
  · rw [if_neg hvc] at hok
    cases hloop : ppgcLoop P victimID n (List.range P.pagesInBlock) 0 st [] with
    | error e => simp [hloop] at hok
    | ok tr =>
      obtain ⟨c1, st1, evs1⟩ := tr
      simp only [hloop] at hok
      have hspec := ppgcLoop_ok_spec P victimID n victimID
        (fun e => match e with | PalEvent.read b _ => b == victimID | _ => true)
        (fun p => by simp) (fun bq p => rfl)
        (List.range P.pagesInBlock) 0 st [] c1 st1 evs1 hloop
      have hspecE := ppgcLoop_ok_spec P victimID n victimID
        (fun e => match e with | PalEvent.erase _ => false | _ => true)
        (fun p => rfl) (fun bq p => rfl)
        (List.range P.pagesInBlock) 0 st [] c1 st1 evs1 hloop
      have hc1 : c1 ≤ n := hspec.1 (by omega)
      have hevs1 : evs1.all
          (fun e => match e with | PalEvent.read b _ => b == victimID | _ => true) =
          true := hspec.2.1 rfl
      have hnoerase : evs1.all
          (fun e => match e with | PalEvent.erase _ => false | _ => true) = true :=
        hspecE.2.1 rfl
      have hpres : (alookup st1.blocks victimID).isSome = true := by
        refine hspec.2.2 ?_
        rw [hb]
        rfl
      obtain ⟨victim1, hv1⟩ := Option.isSome_iff_exists.mp hpres
      simp only [hv1] at hok
      by_cases hvc1 : victim1.validCount = 0
      · rw [if_pos hvc1] at hok
        obtain ⟨st2, hEr, hNone⟩ :=
          eraseInternal_ok_of_empty P st1 victimID victim1 hv1 hvc1
        simp only [hEr] at hok
        rw [Except.ok.injEq, Prod.mk.injEq] at hok
        obtain ⟨hc, hok2⟩ := hok
        rw [Prod.mk.injEq] at hok2
        obtain ⟨hst, hevs⟩ := hok2
        subst hc
        subst hst
        subst hevs
        have hafter : victimValidCountAfter st2 victimID = 0 := by
          unfold victimValidCountAfter
          rw [hNone]
        refine ⟨hc1, ?_, ?_⟩
        · unfold gcReadsOnlyFrom
          rw [List.all_append]
          simp only [hevs1]
          rfl
        · simp [hafter, List.mem_append]
      · rw [if_neg hvc1] at hok
        rw [Except.ok.injEq, Prod.mk.injEq] at hok
        obtain ⟨hc, hok2⟩ := hok
        rw [Prod.mk.injEq] at hok2
        obtain ⟨hst, hevs⟩ := hok2
        subst hc
        subst hst
        subst hevs
        refine ⟨hc1, hevs1, ?_⟩
        constructor
        · intro hmem
          have := List.all_eq_true.mp hnoerase _ hmem
          simp at this
        · intro h0
          unfold victimValidCountAfter at h0
          rw [hv1] at h0
          exact absurd h0 hvc1

/-- Witness for C3 at the four-block fixture: budget 3, one valid page copied
from victim 0, the victim erased. -/
theorem performPartialGC_spec_witness :
    (1 : Nat) ≤ 3 ∧
    gcReadsOnlyFrom 0 [PalEvent.read 0 0, PalEvent.write 1 0, PalEvent.erase 0] = true ∧
    (PalEvent.erase 0 ∈ [PalEvent.read 0 0, PalEvent.write 1 0, PalEvent.erase 0] ↔
      victimValidCountAfter examplePartialAfter 0 = 0) :=
  performPartialGC_spec exampleParams 3 [0] [] examplePartialState examplePartialAfter
    0 [] exampleVictim 1 [PalEvent.read 0 0, PalEvent.write 1 0, PalEvent.erase 0]
    (by decide) (by decide) (by decide) rfl

theorem performPartialGC_no_vpr (P : Params) (n : Nat) (victims sel : List Nat)
    (st : FTLState) :
    performPartialGC P n victims sel st ≠ .error Panic.validPagesRemain := by
  intro h
  unfold performPartialGC at h
  by_cases hz : n = 0
  · rw [if_pos hz] at h
    simp at h
  · rw [if_neg hz] at h
    cases hvl : (if victims = [] then sel else victims) with
    | nil =>
      simp [hvl] at h
    | cons victimID vrest =>
      simp only [hvl] at h
      cases hb : alookup st.blocks victimID with
      | none => simp [hb] at h
      | some victim =>
        simp only [hb] at h
        by_cases hvc : victim.validCount = 0
        · rw [if_pos hvc] at h
          cases hE : eraseInternal P victimID st with
          | error e =>
            simp only [hE] at h
            injection h with he
            have hvpr : eraseInternal P victimID st = .error Panic.validPagesRemain := by
              rw [hE, he]
            obtain ⟨b2, hb2, hv2⟩ := (eraseInternal_vpr_iff P st victimID).mp hvpr
            rw [hb] at hb2
            injection hb2 with hb2
            exact hv2 (hb2 ▸ hvc)
          | ok pr =>
            obtain ⟨st2, evs2⟩ := pr
            simp [hE] at h
        · rw [if_neg hvc] at h
          cases hloop : ppgcLoop P victimID n (List.range P.pagesInBlock) 0 st [] with
          | error e =>
            simp only [hloop] at h
            injection h with he
            exact ppgcLoop_no_vpr P victimID n _ _ _ _ (by rw [hloop, he])
          | ok tr =>
            obtain ⟨c1, st1, evs1⟩ := tr
            simp only [hloop] at h
            cases hv1 : alookup st1.blocks victimID with
            | none => simp [hv1] at h
            | some victim1 =>
              simp only [hv1] at h
              by_cases hvc1 : victim1.validCount = 0
              · rw [if_pos hvc1] at h
                cases hE : eraseInternal P victimID st1 with
                | error e =>
                  simp only [hE] at h
                  injection h with he
                  have hvpr : eraseInternal P victimID st1 =
                      .error Panic.validPagesRemain := by
                    rw [hE, he]
                  obtain ⟨b2, hb2, hv2⟩ := (eraseInternal_vpr_iff P st1 victimID).mp hvpr
                  rw [hv1] at hb2
                  injection hb2 with hb2
                  exact hv2 (hb2 ▸ hvc1)
                | ok pr2 =>
                  obtain ⟨st2, evs2⟩ := pr2
                  simp [hE] at h
              · rw [if_neg hvc1] at h
                simp at h

theorem dgcSetMapping_no_vpr (newBlockID newPageID : Nat) (validBits : List Bool) :
    ∀ (idxs : List Nat) (m : List (Nat × Nat)),
      dgcSetMapping newBlockID newPageID validBits idxs m ≠
        .error Panic.validPagesRemain := by
  intro idxs
  induction idxs with
  | nil =>
    intro m h
    simp [dgcSetMapping] at h
  | cons i rest ih =>
    intro m h
    unfold dgcSetMapping at h
    split at h
    · cases hmg : m[i]? with
      | none => simp [hmg] at h
      | some x =>
        simp only [List.get?_eq_getElem?, hmg] at h
        exact ih _ h
    · exact ih _ h

theorem dgcPageLoop_no_vpr (P : Params) (victimID : Nat) :
    ∀ (idxs : List Nat) (st : FTLState) (evs : List PalEvent),
      dgcPageLoop P victimID idxs st evs ≠ .error Panic.validPagesRemain := by
  intro idxs
  induction idxs with
  | nil =>
    intro st evs h
    simp [dgcPageLoop] at h
  | cons i rest ih =>
    intro st evs h
    unfold dgcPageLoop at h
    cases hvb : alookup st.blocks victimID with
    | none => simp [hvb] at h
    | some victim =>
      simp only [hvb] at h
      cases hpi : victim.getPageInfo i with
      | none =>
        simp only [hpi] at h
        exact ih _ _ h
      | some pr =>
        obtain ⟨lpns, validBits⟩ := pr
        simp only [hpi] at h
        by_cases hany : bitsAny validBits = false
        · rw [if_pos hany] at h
          exact ih _ _ h
        · rw [if_neg hany] at h
          cases hfl : firstValidLpn lpns validBits with
          | none =>
            simp only [hfl] at h
            exact ih _ _ h
          | some lpn =>
            simp only [hfl] at h
            cases hal : getLastFreeBlock P validBits st with
            | error e =>
              simp only [hal] at h
              injection h with he
              exact getLastFreeBlock_no_vpr P validBits st (by rw [hal, he])
            | ok pr2 =>
              obtain ⟨newBlockID, stA⟩ := pr2
              simp only [hal] at h
              cases hnb : alookup stA.blocks newBlockID with
              | none => simp [hnb] at h
              | some newBlock =>
                simp only [hnb] at h
                cases htab : alookup stA.table lpn with
                | none =>
                  simp only [htab] at h
                  exact ih _ _ h
                | some m =>
                  simp only [htab] at h
                  cases hset : dgcSetMapping newBlockID newBlock.nextWritePageIndex
                      validBits (List.range P.bitsetSize) m with
                  | error e =>
                    simp only [hset] at h
                    injection h with he
                    exact dgcSetMapping_no_vpr _ _ _ _ m (by rw [hset, he])
                  | ok m1 =>
                    simp only [hset] at h
                    exact ih _ _ h

theorem dgcVictimLoop_no_vpr (P : Params) :
    ∀ (vs : List Nat) (st : FTLState) (evs : List PalEvent),
      dgcVictimLoop P vs st evs ≠ .error Panic.validPagesRemain := by
  intro vs
  induction vs with
  | nil =>
    intro st evs h
    simp [dgcVictimLoop] at h
  | cons vid rest ih =>
    intro st evs h
    unfold dgcVictimLoop at h
    cases hvb : alookup st.blocks vid with
    | none =>
      simp only [hvb] at h
      exact ih _ _ h
    | some victim =>
      simp only [hvb] at h
      by_cases hvc : victim.validCount = 0
      · rw [if_pos hvc] at h
        cases hE : eraseInternal P vid st with
        | error e =>
          simp only [hE] at h
          injection h with he
          have hvpr : eraseInternal P vid st = .error Panic.validPagesRemain := by
            rw [hE, he]
          obtain ⟨b2, hb2, hv2⟩ := (eraseInternal_vpr_iff P st vid).mp hvpr
          rw [hvb] at hb2
          injection hb2 with hb2
          exact hv2 (hb2 ▸ hvc)
        | ok pr =>
          obtain ⟨st1, evs1⟩ := pr
          simp only [hE] at h
          exact ih _ _ h
      · rw [if_neg hvc] at h
        cases hpl : dgcPageLoop P vid (List.range P.pagesInBlock) st evs with
        | error e =>
          simp only [hpl] at h
          injection h with he
          exact dgcPageLoop_no_vpr P vid _ st evs (by rw [hpl, he])
        | ok pr =>
          obtain ⟨st1, evs1⟩ := pr
          simp only [hpl] at h
          cases hv1 : alookup st1.blocks vid with
          | none =>
            simp only [hv1] at h
            exact ih _ _ h
          | some victim1 =>
            simp only [hv1] at h
            by_cases hvc1 : victim1.validCount = 0
            · rw [if_pos hvc1] at h
              cases hE : eraseInternal P vid st1 with
              | error e =>
                simp only [hE] at h
                injection h with he
                have hvpr : eraseInternal P vid st1 = .error Panic.validPagesRemain := by
                  rw [hE, he]
                obtain ⟨b2, hb2, hv2⟩ := (eraseInternal_vpr_iff P st1 vid).mp hvpr
                rw [hv1] at hb2
                injection hb2 with hb2
                exact hv2 (hb2 ▸ hvc1)
              | ok pr2 =>
                obtain ⟨st2, evs2⟩ := pr2
                simp only [hE] at h
                exact ih _ _ h
            · rw [if_neg hvc1] at h
              exact ih _ _ h

/-- C6: eraseInternal fails with the valid-pages panic precisely on blocks
that still hold valid pages, and neither GC path (partial or full) can return
that panic — each erase they issue is guarded by an emptiness check. -/
theorem erase_guard_and_gc_paths (P : Params) (st st2 : FTLState) (bid n : Nat)
    (victims sel : List Nat) (b : Block)
    (hb : alookup st.blocks bid = some b) (hv : b.validCount ≠ 0) :
    eraseInternal P bid st = .error Panic.validPagesRemain ∧
    performPartialGC P n victims sel st2 ≠ .error Panic.validPagesRemain ∧
    doGarbageCollection P victims sel st2 ≠ .error Panic.validPagesRemain := by
  refine ⟨(eraseInternal_vpr_iff P st bid).mpr ⟨b, hb, hv⟩,
    performPartialGC_no_vpr P n victims sel st2, ?_⟩
  intro h
  unfold doGarbageCollection at h
  exact dgcVictimLoop_no_vpr P _ st2 [] h

/-- Witness for C6: erasing block 0 of the trim fixture (two valid pages)
panics, while the partial and full GC paths on the partial-GC fixture never
produce that panic. -/
theorem erase_guard_and_gc_paths_witness :
    eraseInternal exampleParams 0 exampleTrimState = .error Panic.validPagesRemain ∧
    performPartialGC exampleParams 3 [0] [] examplePartialState ≠
      .error Panic.validPagesRemain ∧
    doGarbageCollection exampleParams [0] [] examplePartialState ≠
      .error Panic.validPagesRemain :=
  erase_guard_and_gc_paths exampleParams exampleTrimState examplePartialState 0 3
    [0] [] exampleTrimBlock (by decide) (by decide)

end SimpleSSDFTL
